import Mathlib

/-!
Verification of the wrpssp package (WRP Simple Streaming Protocol).

This file contains a shallow embedding, in Lean 4, of the core of the
`wrpssp` Go package: the control-header codec (`split`, `from`, `headers` on
`simpleStreamingMessage`), the per-fragment encoding abstraction
(`Encoding.encode` / `Encoding.decode`), the `Packetizer` (`nextRaw`, `Next`),
and the `Assembler` (`ProcessWRP`, `Read`, `getPacket`, `getFinalState`,
`Close`), together with theorems settling the specification claims.

Modelling conventions:
- Go strings are modelled as `List Char` (`GoStr`); byte slices as `List Nat`.
- Go `int64`/`uint64` are modelled as `Int`/`Nat`; the places where the code
  parses decimal numbers carry the explicit `2^63` / `2^64` range checks
  performed by `strconv.ParseInt` / `strconv.ParseUint`.
- Go error values are modelled by the inductive `GoErr`, with `errString`
  modelling the `Error()` method.  Error identity/wrapping is modelled at the
  granularity the package itself distinguishes.
- The external gzip/deflate compressors (Go's `compress/gzip` and
  `compress/flate`, not part of this repository) are a parameter `FlateLib`;
  the properties of the real library that the theorems rely on are collected
  in the `FlateSpec` predicate and discharged on an executable stand-in
  (`mockLib`) in witnesses.
-/

namespace Wrpssp

/-- Go byte values (payload contents are opaque to the protocol). -/
abbrev Byte := Nat

/-- Go strings, modelled as lists of characters. -/
abbrev GoStr := List Char

/-- The whitespace characters recognised by `strings.TrimSpace` (ASCII part of
Unicode whitespace; all strings handled by this package are ASCII). -/
def isSpaceChar (c : Char) : Bool :=
  c = ' ' || c = '\t' || c = '\n' || c = '\x0b' || c = '\x0c' || c = '\r'

/-- `strings.TrimSpace`: drop leading and trailing whitespace. -/
def trimSpace (s : GoStr) : GoStr :=
  ((s.dropWhile isSpaceChar).reverse.dropWhile isSpaceChar).reverse

/-- `strings.ToLower`, per character. -/
def toLowerStr (s : GoStr) : GoStr := s.map Char.toLower

/-- `strings.TrimLeft(s, "0")`. -/
def trimLeftZeros (s : GoStr) : GoStr := s.dropWhile (fun c => c = '0')

/-- `strings.HasPrefix`. -/
def goHasPrefix (s pre : GoStr) : Bool := pre.isPrefixOf s

/-- `strings.Cut(s, ":")`: split at the first colon; `none` when no colon. -/
def cutColon : GoStr → Option (GoStr × GoStr)
  | [] => none
  | c :: rest =>
    if c = ':' then some ([], rest)
    else (cutColon rest).map (fun p => (c :: p.1, p.2))

/-- `strings.SplitN(s, "+", 2)[0]`: the prefix before the first plus sign. -/
def beforePlus (s : GoStr) : GoStr := s.takeWhile (fun c => c ≠ '+')

/-- Go error values reaching this package's logic, identified the way the
package itself distinguishes them (`errors.Is` on the sentinels, plus the
`Error()` text captured by `errString`). -/
inductive GoErr where
  /-- `io.EOF` -/
  | eof
  /-- `io.ErrUnexpectedEOF` -/
  | unexpectedEOF
  /-- the package's `unexpectedEOF{message}` wrapper (errors.go) -/
  | unexpectedEOFMsg (message : GoStr)
  /-- `context.Canceled` -/
  | ctxCanceled
  /-- `ErrClosed` -/
  | errClosed
  /-- `wrp.ErrNotHandled` -/
  | errNotHandled
  /-- `ErrInvalidInput` (possibly joined with a cause, per `errors.Join`) -/
  | errInvalidInput
  /-- `ErrUnsupportedEncoding` -/
  | errUnsupportedEncoding
  /-- any other error, identified by its message -/
  | other (msg : GoStr)
deriving DecidableEq, Repr

/-- The `Error()` string of a modelled Go error. -/
def errString : GoErr → GoStr
  | .eof => "EOF".data
  | .unexpectedEOF => "unexpected EOF".data
  | .unexpectedEOFMsg m => "unexpected EOF: ".data ++ m
  | .ctxCanceled => "context canceled".data
  | .errClosed => "closed".data
  | .errNotHandled => "not handled".data
  | .errInvalidInput => "invalid input".data
  | .errUnsupportedEncoding => "unsupported encoding".data
  | .other m => m

/-! ### Decimal printing and parsing (`strconv`) -/

/-- The character for a single decimal digit. -/
def digitChar (d : Nat) : Char := Char.ofNat (48 + d)

/-- The value of a decimal digit character, if it is one. -/
def decDigit? (c : Char) : Option Nat :=
  if '0' ≤ c ∧ c ≤ '9' then some (c.toNat - 48) else none

/-- One step of decimal-value accumulation (none on a non-digit). -/
def decStep (acc : Option Nat) (c : Char) : Option Nat :=
  acc.bind (fun a => (decDigit? c).map (fun d => a * 10 + d))

/-- Accumulate the value of a digit string (none on any non-digit). -/
def decDigits? (s : GoStr) : Option Nat :=
  s.foldl decStep (some 0)

/-- Render the decimal digits of `n` in front of `acc`, least significant
digit first-prepended (the loop of Go's `formatBits`). -/
def natToDecAux : Nat → GoStr → GoStr
  | 0, acc => acc
  | n + 1, acc => natToDecAux ((n + 1) / 10) (digitChar ((n + 1) % 10) :: acc)
decreasing_by exact Nat.div_lt_self (Nat.succ_pos n) (by norm_num)

/-- Canonical decimal rendering of a natural number (no leading zeros),
modelling `strconv.FormatUint` and the non-negative case of
`strconv.FormatInt`. -/
def natToDec (n : Nat) : GoStr :=
  if n = 0 then ['0'] else natToDecAux n []

/-- `strconv.FormatInt(i, 10)`. -/
def intToDec (i : Int) : GoStr :=
  if i < 0 then '-' :: natToDec i.natAbs else natToDec i.natAbs

/-- `strconv.ParseUint(s, 10, 64)`: digits only (no sign), value below `2^64`.
`none` models the parse error. -/
def goParseUint (s : GoStr) : Option Nat :=
  if s = [] then none
  else (decDigits? s).bind (fun v => if v < 2 ^ 64 then some v else none)

/-- `strconv.ParseInt(s, 10, 64)`: optional sign, then digits, with the
`int64` range check. `none` models the parse error. -/
def goParseInt (s : GoStr) : Option Int :=
  match s with
  | [] => none
  | c :: rest =>
    if c = '+' then
      if rest = [] then none
      else (decDigits? rest).bind (fun v => if v ≤ 2 ^ 63 - 1 then some (v : Int) else none)
    else if c = '-' then
      if rest = [] then none
      else (decDigits? rest).bind (fun v => if v ≤ 2 ^ 63 then some (-(v : Int)) else none)
    else (decDigits? s).bind (fun v => if v ≤ 2 ^ 63 - 1 then some (v : Int) else none)

/-- `isZero(s)`: treat the value as zero if it is `"0"` or a nonempty run of
`'0'` characters; also returns the remainder after stripping leading zeros. -/
def isZero (s : GoStr) : Bool × GoStr :=
  if s = [] then (false, s)
  else if s = ['0'] then (true, s)
  else
    let t := trimLeftZeros s
    (t = [], t)

/-! ### Decimal round-trip lemmas -/

theorem decDigit?_digitChar (d : Nat) (hd : d < 10) : decDigit? (digitChar d) = some d := by
  interval_cases d <;> rfl

theorem digitChar_ne_plus (d : Nat) (hd : d < 10) : digitChar d ≠ '+' := by
  interval_cases d <;> decide

theorem digitChar_ne_minus (d : Nat) (hd : d < 10) : digitChar d ≠ '-' := by
  interval_cases d <;> decide

theorem digitChar_ne_zero (d : Nat) (hd : d < 10) (h0 : d ≠ 0) : digitChar d ≠ '0' := by
  interval_cases d <;> first | exact absurd rfl h0 | decide

theorem natToDecAux_cons :
    ∀ n : Nat, n ≠ 0 → ∀ acc : GoStr,
      ∃ d l, natToDecAux n acc = digitChar d :: l ∧ d < 10 ∧ d ≠ 0 := by
  intro n
  induction n using Nat.strong_induction_on with
  | _ n ih =>
    intro hn acc
    match n, hn with
    | n + 1, _ =>
      rw [natToDecAux]
      by_cases hq : (n + 1) / 10 = 0
      · rw [hq, natToDecAux]
        exact ⟨(n + 1) % 10, acc, rfl, Nat.mod_lt _ (by norm_num), by omega⟩
      · exact ih ((n + 1) / 10) (Nat.div_lt_self (Nat.succ_pos n) (by norm_num)) hq _

theorem natToDecAux_parse :
    ∀ n : Nat, n ≠ 0 → ∀ (acc : GoStr) (a : Nat),
      ∃ k, List.foldl decStep (some a) (natToDecAux n acc) =
        List.foldl decStep (some (a * 10 ^ k + n)) acc := by
  intro n
  induction n using Nat.strong_induction_on with
  | _ n ih =>
    intro hn acc a
    match n, hn with
    | n + 1, _ =>
      rw [natToDecAux]
      by_cases hq : (n + 1) / 10 = 0
      · rw [hq, natToDecAux]
        refine ⟨1, ?_⟩
        simp only [List.foldl_cons, decStep, Option.some_bind,
          decDigit?_digitChar _ (Nat.mod_lt _ (by norm_num)), Option.map_some]
        have hmod : (n + 1) % 10 = n + 1 := Nat.mod_eq_of_lt (by omega)
        rw [hmod]
        norm_num
      · obtain ⟨k, hk⟩ :=
          ih ((n + 1) / 10) (Nat.div_lt_self (Nat.succ_pos n) (by norm_num)) hq
            (digitChar ((n + 1) % 10) :: acc) a
        refine ⟨k + 1, ?_⟩
        rw [hk]
        have harith : (a * 10 ^ k + (n + 1) / 10) * 10 + (n + 1) % 10 =
            a * 10 ^ (k + 1) + (n + 1) := by
          have hdm := Nat.div_add_mod (n + 1) 10
          rw [pow_succ, ← mul_assoc]
          omega
        simp [List.foldl_cons, decStep,
          decDigit?_digitChar _ (Nat.mod_lt _ (by norm_num)), harith]

theorem decDigits?_natToDec (n : Nat) : decDigits? (natToDec n) = some n := by
  by_cases h : n = 0
  · subst h; rfl
  · unfold natToDec decDigits?
    rw [if_neg h]
    obtain ⟨k, hk⟩ := natToDecAux_parse n h [] 0
    rw [hk]
    simp

theorem natToDec_shape (n : Nat) (h : n ≠ 0) :
    ∃ d l, natToDec n = digitChar d :: l ∧ d < 10 ∧ d ≠ 0 := by
  unfold natToDec
  rw [if_neg h]
  exact natToDecAux_cons n h []

theorem natToDec_ne_nil (n : Nat) : natToDec n ≠ [] := by
  by_cases h : n = 0
  · subst h; decide
  · obtain ⟨d, l, heq, _, _⟩ := natToDec_shape n h
    rw [heq]
    simp

theorem trimLeftZeros_cons (c : Char) (l : GoStr) (h : c ≠ '0') :
    trimLeftZeros (c :: l) = c :: l := by
  simp [trimLeftZeros, List.dropWhile_cons, h]

theorem isZero_natToDec (n : Nat) (h : n ≠ 0) :
    isZero (natToDec n) = (false, natToDec n) := by
  obtain ⟨d, l, heq, hd, hd0⟩ := natToDec_shape n h
  have hne : natToDec n ≠ [] := natToDec_ne_nil n
  have hne0 : natToDec n ≠ ['0'] := by
    rw [heq]
    intro hc
    simp only [List.cons.injEq] at hc
    exact digitChar_ne_zero d hd hd0 hc.1
  have htrim : trimLeftZeros (natToDec n) = natToDec n := by
    rw [heq]
    exact trimLeftZeros_cons _ _ (digitChar_ne_zero d hd hd0)
  unfold isZero
  rw [if_neg hne, if_neg hne0, htrim]
  simp [hne]

theorem goParseInt_natToDec (n : Nat) (h : n < 2 ^ 63) :
    goParseInt (natToDec n) = some (n : Int) := by
  by_cases h0 : n = 0
  · subst h0; rfl
  · obtain ⟨d, l, heq, hd, hd0⟩ := natToDec_shape n h0
    unfold goParseInt
    rw [heq]
    simp only [digitChar_ne_plus d hd, digitChar_ne_minus d hd, if_false]
    rw [← heq, decDigits?_natToDec]
    simp only [Option.some_bind]
    rw [if_pos (by omega)]

theorem goParseUint_natToDec (n : Nat) (hn : n < 2 ^ 64) :
    goParseUint (natToDec n) = some n := by
  unfold goParseUint
  rw [if_neg (natToDec_ne_nil n), decDigits?_natToDec]
  simp only [Option.some_bind]
  rw [if_pos hn]

theorem intToDec_nonneg (n : Int) (h : 0 ≤ n) : intToDec n = natToDec n.toNat := by
  unfold intToDec
  rw [if_neg (by omega)]
  congr 1
  omega

/-! ### The five reserved control-header keys -/

def keyStreamID : GoStr := "stream-id".data
def keyPacketNumber : GoStr := "stream-packet-number".data
def keyEstimatedLength : GoStr := "stream-estimated-total-length".data
def keyFinalPacket : GoStr := "stream-final-packet".data
def keyEncoding : GoStr := "stream-encoding".data

/-- The reserved-key → value association built by `split` (Go renders it as a
`map[string]string`; since exactly five keys can occur, one optional field per
key is an equivalent and order-insensitive representation). -/
structure HeaderMap where
  streamID : Option GoStr := none
  packetNumber : Option GoStr := none
  estimatedLength : Option GoStr := none
  finalPacket : Option GoStr := none
  encoding : Option GoStr := none
deriving DecidableEq, Repr

/-- Whether the map holds at least one reserved key (`len(mine) > 0`). -/
def HeaderMap.nonempty (hm : HeaderMap) : Bool :=
  hm.streamID.isSome || hm.packetNumber.isSome || hm.estimatedLength.isSome ||
    hm.finalPacket.isSome || hm.encoding.isSome

/-- What `split` does with one header line: either it is claimed by a reserved
key (carrying the trimmed value), or it is passed through verbatim. -/
inductive LineClass where
  | sid (v : GoStr) | pkt (v : GoStr) | elen (v : GoStr) | fpkt (v : GoStr)
  | enc (v : GoStr) | plain
deriving DecidableEq, Repr

/-- Classify one header line exactly as the loop body of `split` does:
cut at the first colon, trim and lowercase the key, trim the value. -/
def classifyLine (h : GoStr) : LineClass :=
  match cutColon h with
  | none => .plain
  | some (k, v) =>
    let key := toLowerStr (trimSpace k)
    let value := trimSpace v
    if key = keyStreamID then .sid value
    else if key = keyPacketNumber then .pkt value
    else if key = keyEstimatedLength then .elen value
    else if key = keyFinalPacket then .fpkt value
    else if key = keyEncoding then .enc value
    else .plain

/-- The loop of `split`, with the accumulated map and pass-through lines.
Later occurrences of a reserved key overwrite earlier ones (`result[key] = v`);
non-reserved lines are appended in order. -/
def splitGo (acc : HeaderMap) (others : List GoStr) : List GoStr → HeaderMap × List GoStr
  | [] => (acc, others)
  | h :: t =>
    match classifyLine h with
    | .sid v => splitGo { acc with streamID := some v } others t
    | .pkt v => splitGo { acc with packetNumber := some v } others t
    | .elen v => splitGo { acc with estimatedLength := some v } others t
    | .fpkt v => splitGo { acc with finalPacket := some v } others t
    | .enc v => splitGo { acc with encoding := some v } others t
    | .plain => splitGo acc (others ++ [h]) t

/-- `split(headers)` from headers.go: separate the reserved control headers
(as a key → trimmed-value association) from all other lines. -/
def split (headers : List GoStr) : HeaderMap × List GoStr :=
  splitGo {} [] headers

/-! ### Encodings -/

/-- `Encoding` is a Go string type. -/
abbrev Encoding := GoStr

def encIdentity : Encoding := "identity".data
def encGzip : Encoding := "gzip".data
def encDeflate : Encoding := "deflate".data

/-- `Encoding.isValid`: empty, identity, gzip or deflate. -/
def encIsValid (e : Encoding) : Bool :=
  e = [] || e = encIdentity || e = encGzip || e = encDeflate

/-- `Encoding.is(want)`: for identity, the empty string is a synonym;
otherwise exact match among the valid encodings. -/
def encIs (e want : Encoding) : Bool :=
  if want = encIdentity then e = [] || e = encIdentity
  else e = want && encIsValid e

/-- `Encoding.string()`: the part before the first `+`. -/
def encString (e : Encoding) : GoStr := beforePlus e

/-- The external DEFLATE-family compressors (Go's `compress/gzip` and
`compress/flate` standard-library packages, which are not part of this
repository).  `gzipC`/`flateC` model compression at the level selected by the
package for the valid encodings (the default level); `gzipD`/`flateD` model
`gzip.NewReader` + `io.ReadAll` and `flate.NewReader` + `io.ReadAll`. -/
structure FlateLib where
  gzipC : List Byte → List Byte
  gzipD : List Byte → Except GoErr (List Byte)
  flateC : List Byte → List Byte
  flateD : List Byte → Except GoErr (List Byte)

/-- The facts about the real compressors that the theorems rely on:
both are lossless (round-trip), and on empty input `gzip.NewReader` fails
with `io.EOF` (its 10-byte header read via `io.ReadFull` sees a clean EOF)
while the flate decompressor fails with `io.ErrUnexpectedEOF` (its `moreBits`
maps the initial `io.EOF` to `io.ErrUnexpectedEOF`, a DEFLATE stream needing
at least one block). -/
structure FlateSpec (lib : FlateLib) : Prop where
  gzip_rt : ∀ x, lib.gzipD (lib.gzipC x) = .ok x
  flate_rt : ∀ x, lib.flateD (lib.flateC x) = .ok x
  gzip_empty : lib.gzipD [] = .error .eof
  flate_empty : lib.flateD [] = .error .unexpectedEOF

/-- An executable stand-in for the compressors, used to evaluate concrete
pipeline runs: a single header byte plays the role of the gzip/deflate
framing, so the `FlateSpec` contract holds. -/
def mockLib : FlateLib where
  gzipC x := 31 :: x
  gzipD x :=
    match x with
    | [] => .error .eof
    | 31 :: r => .ok r
    | _ => .error (.other "gzip: invalid header".data)
  flateC x := 120 :: x
  flateD x :=
    match x with
    | [] => .error .unexpectedEOF
    | 120 :: r => .ok r
    | _ => .error (.other "flate: corrupt input".data)

theorem mockLib_spec : FlateSpec mockLib := by
  refine ⟨fun x => rfl, fun x => rfl, rfl, rfl⟩

/-- `Encoding.encode(data)`: identity passes through; a `gzip`/`deflate`
prefix selects the corresponding compressor (at the level in
`compressionLevels`); anything else is the unsupported-encoding error.
Compression of in-memory buffers never fails, so those branches are `ok`. -/
def encEncode (lib : FlateLib) (e : Encoding) (data : List Byte) : Except GoErr (List Byte) :=
  if encIs e encIdentity then .ok data
  else if goHasPrefix e encGzip then .ok (lib.gzipC data)
  else if goHasPrefix e encDeflate then .ok (lib.flateC data)
  else .error .errUnsupportedEncoding

/-- `Encoding.decode(data)`: the inverse dispatch. -/
def encDecode (lib : FlateLib) (e : Encoding) (data : List Byte) : Except GoErr (List Byte) :=
  if encIs e encIdentity then .ok data
  else if goHasPrefix e encGzip then lib.gzipD data
  else if goHasPrefix e encDeflate then lib.flateD data
  else .error .errUnsupportedEncoding

/-! ### WRP messages and the simpleStreamingMessage codec -/

/-- The WRP message types this package distinguishes. -/
inductive MsgType where
  | simpleEvent
  | simpleRequestResponse
  | otherType
deriving DecidableEq, Repr

/-- The slice of the external `wrp.Message` struct that the package reads or
writes: message type, the generic header-line list, the binary payload and the
transaction id.  Routing fields are copied through untouched and never
inspected, so they are not modelled. -/
structure WrpMessage where
  mtype : MsgType := .simpleEvent
  headers : List GoStr := []
  payload : List Byte := []
  transactionUUID : GoStr := []
deriving DecidableEq, Repr

/-- The five SSP control fields of a `simpleStreamingMessage`. -/
structure SSPFields where
  streamID : GoStr := []
  packetNumber : Int := 0
  estimatedLength : Nat := 0
  finalPacket : GoStr := []
  encoding : Encoding := []
deriving DecidableEq, Repr

/-- `simpleStreamingMessage`: an embedded `wrp.Message` plus the five SSP
control fields. -/
structure SSM where
  message : WrpMessage := {}
  fields : SSPFields := {}
deriving DecidableEq, Repr

/-- The `stream-packet-number` case of `from`: `-1` is the "absent" sentinel,
`isZero` recognises runs of zeros, and the trimmed remainder goes through
`strconv.ParseInt`. -/
def parsePN (v? : Option GoStr) : Except GoErr Int :=
  match v? with
  | none => .ok (-1)
  | some v =>
    let z := isZero v
    if z.1 then .ok 0
    else if z.2 = [] then .ok (-1)
    else
      match goParseInt z.2 with
      | none => .error .errInvalidInput
      | some i => .ok i

/-- The `stream-estimated-total-length` case of `from`. -/
def parseEL (v? : Option GoStr) : Except GoErr Nat :=
  match v? with
  | none => .ok 0
  | some v =>
    let z := isZero v
    if z.1 || z.2 = [] then .ok 0
    else
      match goParseUint z.2 with
      | none => .error .errInvalidInput
      | some u => .ok u

/-- The `stream-final-packet` case of `from`: only the case of the literal
`eof` is normalised. -/
def parseFP (v? : Option GoStr) : GoStr :=
  match v? with
  | none => []
  | some v => if toLowerStr v = "eof".data then toLowerStr v else v

/-- `simpleStreamingMessage.from(headers)`: decode the five control fields
from the reserved-key association.  Stream id defaults to empty, packet number
to the `-1` "absent" sentinel; the only errors are unparsable numeric values
(joined with `ErrInvalidInput`). -/
def ssmFrom (hm : HeaderMap) : Except GoErr SSPFields := do
  let pn : Int ← parsePN hm.packetNumber
  let el : Nat ← parseEL hm.estimatedLength
  pure
    { streamID := hm.streamID.getD []
      packetNumber := pn
      estimatedLength := el
      finalPacket := parseFP hm.finalPacket
      encoding := hm.encoding.getD [] }

/-- The SSP part of `simpleStreamingMessage.Validate` (with no validators the
standard validation applies): stream id present, packet number non-negative,
encoding valid.  The standard validation of the embedded external
`wrp.Message` is an external collaborator (out of scope per the spec) and is
modelled as accepting. -/
def ssmValidate (f : SSPFields) : Option GoErr :=
  if f.streamID ≠ [] ∧ 0 ≤ f.packetNumber ∧ encIsValid f.encoding then none
  else some .errInvalidInput

/-- `simpleStreamingMessage.headers()`: render the present control fields as
header lines, in the source's fixed order, with the documented omissions
(packet number only when non-negative, estimated length only when positive,
final packet only when nonempty and normalised to lowercase `eof`, encoding
only when valid and not equivalent to identity). -/
def ssmHeaders (f : SSPFields) : List GoStr :=
  (if f.streamID ≠ [] then [keyStreamID ++ ": ".data ++ f.streamID] else []) ++
  (if 0 ≤ f.packetNumber then [keyPacketNumber ++ ": ".data ++ intToDec f.packetNumber] else []) ++
  (if 0 < f.estimatedLength then [keyEstimatedLength ++ ": ".data ++ natToDec f.estimatedLength] else []) ++
  (if f.finalPacket ≠ [] then
    [keyFinalPacket ++ ": ".data ++
      (if toLowerStr (trimSpace f.finalPacket) = "eof".data then "eof".data else f.finalPacket)]
   else []) ++
  (if encIsValid f.encoding && !encIs f.encoding encIdentity then
    [keyEncoding ++ ": ".data ++ encString f.encoding] else [])

/-- `simpleStreamingMessage.From(msg)`: copy the message, separate the
reserved headers from the rest, decode the control fields, then validate. -/
def ssmFromMsg (m : WrpMessage) : Except GoErr SSM :=
  let mo := split m.headers
  match ssmFrom mo.1 with
  | .error e => .error e
  | .ok f =>
    match ssmValidate f with
    | some e => .error e
    | none => .ok ⟨{ m with headers := mo.2 }, f⟩

/-- `simpleStreamingMessage.To(msg)`: validate, copy the embedded message,
then rebuild the header list as the non-reserved lines followed by the
rendered control headers. -/
def ssmToMsg (ssm : SSM) : Except GoErr WrpMessage :=
  match ssmValidate ssm.fields with
  | some e => .error e
  | none =>
    .ok { ssm.message with headers := (split ssm.message.headers).2 ++ ssmHeaders ssm.fields }

/-- `Is(msg)` in the case the `Assembler` exercises (`msg` is a
`*wrp.Message`): the message is an SSP message iff any reserved header key is
present.  Note the message type is not consulted on this path. -/
def isSSPCandidate (m : WrpMessage) : Bool :=
  (split m.headers).1.nonempty

/-- `GetStreamID(msg)`: simple-event messages with a `stream-id` header yield
its (trimmed) value; everything else is `wrp.ErrNotHandled`. -/
def GetStreamID (m : WrpMessage) : GoStr × Option GoErr :=
  if m.mtype ≠ .simpleEvent then ([], some .errNotHandled)
  else
    match (split m.headers).1.streamID with
    | some id => (id, none)
    | none => ([], some .errNotHandled)

/-! ### Packetizer -/

/-- One `Read(buf)` outcome of the underlying byte source: the bytes written
into the buffer (at most `maxPacketSize` of them for a law-abiding reader)
and the returned error. -/
abbrev ReadEvt := List Byte × Option GoErr

/-- The `Packetizer` state.  The `io.Reader` is modelled by the list of the
read outcomes it will produce for the size-`maxPacketSize` buffers the
packetizer hands it; the transaction-id generator (a stateful Go closure)
is modelled by the function from its invocation count to its result. -/
structure Packetizer where
  stream : List ReadEvt
  id : GoStr
  currentPacketNumber : Int := 0
  maxPacketSize : Nat
  encoding : Encoding
  txGen : Option (Nat → Except GoErr GoStr) := none
  txCount : Nat := 0
  estimatedSize : Nat := 0
  finalPacket : GoStr := []
  outcome : Option GoErr := none

/-- The `for n == 0 && err == nil` retry loop around `p.stream.Read(buf)`
(in the non-cancelled case): skip unproductive reads until the source yields
bytes or an error.  `none` models the case where the source never does — the
Go loop would then spin forever. -/
def readLoop : List ReadEvt → Option (ReadEvt × List ReadEvt)
  | [] => none
  | (bs, e) :: rest =>
    if bs = [] ∧ e = none then readLoop rest else some ((bs, e), rest)

/-- The read phase of `nextRaw`: when the cancellation signal has fired the
`select` takes the `ctx.Done()` branch before any read (`err = ctx.Err()`,
with `finalPacket` set to its text, which the post-loop error handling
re-establishes identically); otherwise the retry loop runs. -/
def readPhase (cancelled : Bool) (events : List ReadEvt) :
    Option (ReadEvt × List ReadEvt) :=
  if cancelled then some (([], some .ctxCanceled), events)
  else readLoop events

/-- The post-loop error handling of `nextRaw`: a clean `io.EOF` is recorded
as the literal `"EOF"`, any other read error as its own text; with no error
the terminal reason stays as it was. -/
def fpAfterRead (old : GoStr) (rerr : Option GoErr) : GoStr :=
  match rerr with
  | some e => if e = .eof then "EOF".data else errString e
  | none => old

/-- The encode step of `nextRaw`: only bytes actually read are encoded
(`if n > 0`); with no bytes the payload stays nil. -/
def encStep (lib : FlateLib) (e : Encoding) (bs : List Byte) : Except GoErr (List Byte) :=
  if bs ≠ [] then encEncode lib e bs else .ok []

/-- The payload after the encode step (`out.Payload` stays nil on failure). -/
def payloadOf (er : Except GoErr (List Byte)) : List Byte :=
  match er with | .ok d => d | .error _ => []

/-- The terminal reason after the encode step: an encoding failure overwrites
it with its own text. -/
def fp2Of (fp1 : GoStr) (er : Except GoErr (List Byte)) : GoStr :=
  match er with | .ok _ => fp1 | .error e => errString e

/-- The stored outcome after the encode step (given the guard saw no stored
outcome yet, the read error — or the encode error — becomes it). -/
def outcome2Of (rerr : Option GoErr) (er : Except GoErr (List Byte)) : Option GoErr :=
  match er with | .ok _ => rerr | .error e => some e

/-- `Packetizer.nextRaw(ctx, msg)`: returns `none` when the read loop would
spin forever, otherwise the `(ssm, err)` pair and the updated state. -/
def nextRaw (lib : FlateLib) (cancelled : Bool) (template : WrpMessage) (p : Packetizer) :
    Option ((Option SSM × Option GoErr) × Packetizer) :=
  match p.outcome with
  | some o => some ((none, some o), p)
  | none =>
    match readPhase cancelled p.stream with
    | none => none
    | some ((bs, rerr), stream') =>
      let er := encStep lib p.encoding bs
      let fp2 := fp2Of (fpAfterRead p.finalPacket rerr) er
      let outcome2 := outcome2Of rerr er
      let fields : SSPFields :=
        { streamID := p.id
          packetNumber := p.currentPacketNumber
          estimatedLength := p.estimatedSize
          finalPacket := fp2
          encoding := p.encoding }
      let p1 : Packetizer :=
        { p with
          stream := stream'
          finalPacket := fp2
          outcome := outcome2
          currentPacketNumber := p.currentPacketNumber + 1 }
      -- the transaction-id generator runs after the sequence counter has
      -- already been advanced; its failure aborts the call with no fragment
      match p.txGen with
      | none =>
        some ((some ⟨{ template with payload := payloadOf er }, fields⟩, outcome2), p1)
      | some g =>
        let p2 := { p1 with txCount := p.txCount + 1 }
        match g p.txCount with
        | .error e => some ((none, some e), p2)
        | .ok tid =>
          some ((some ⟨{ template with payload := payloadOf er, transactionUUID := tid }, fields⟩,
                 outcome2), p2)

/-- `Packetizer.Next(ctx, msg)`: run `nextRaw` and convert the streaming
message to a plain WRP message via `To`. -/
def next (lib : FlateLib) (cancelled : Bool) (template : WrpMessage) (p : Packetizer) :
    Option ((Option WrpMessage × Option GoErr) × Packetizer) :=
  match nextRaw lib cancelled template p with
  | none => none
  | some ((none, err), p') => some ((none, err), p')
  | some ((some ssm, err), p') =>
    match ssmToMsg ssm with
    | .error e => some ((none, some e), p')
    | .ok out => some ((some out, err), p')

/-- Iterate `Next`, collecting each call's `(message, error)` pair (stopping
early only if the read loop would spin forever). -/
def runNext (lib : FlateLib) (template : WrpMessage) :
    Nat → Packetizer → List (Option WrpMessage × Option GoErr) × Packetizer
  | 0, p => ([], p)
  | fuel + 1, p =>
    match next lib false template p with
    | none => ([], p)
    | some (r, p') =>
      let rest := runNext lib template fuel p'
      (r :: rest.1, rest.2)

/-- Iterate `nextRaw` the same way (for claims stated on `nextRaw` itself). -/
def runNextRaw (lib : FlateLib) (template : WrpMessage) :
    Nat → Packetizer → List (Option SSM × Option GoErr) × Packetizer
  | 0, p => ([], p)
  | fuel + 1, p =>
    match nextRaw lib false template p with
    | none => ([], p)
    | some (r, p') =>
      let rest := runNextRaw lib template fuel p'
      (r :: rest.1, rest.2)

/-- The packet numbers of the fragments actually emitted by a run. -/
def emittedNumbers (rs : List (Option SSM × Option GoErr)) : List Int :=
  rs.filterMap (fun r => r.1.map (fun s => s.fields.packetNumber))

/-- The read outcomes of a `bytes.Reader` over `data` for size-`m` buffers:
`min m remaining` bytes while data remains, then `(0, io.EOF)`. -/
def bytesReaderEvents (m : Nat) (data : List Byte) : List ReadEvt :=
  if h : data = [] ∨ m = 0 then [([], some .eof)]
  else (data.take m, none) :: bytesReaderEvents m (data.drop m)
termination_by data.length
decreasing_by
  push_neg at h
  obtain ⟨h1, h2⟩ := h
  have : 0 < data.length := List.length_pos.mpr h1
  simp [List.length_drop]
  omega

/-- A `Packetizer` as produced by `New` with options `ID(id)`, `Reader` over
`data`, `MaxPacketSize(m)` (with `m ≥ 1`), `WithEncoding(enc)` and
`EstimatedLength(est)`, and no transaction-id generator. -/
def initPacketizer (data : List Byte) (m : Nat) (id : GoStr) (enc : Encoding) (est : Nat) :
    Packetizer :=
  { stream := bytesReaderEvents m data
    id := id
    maxPacketSize := m
    encoding := enc
    estimatedSize := est }

/-- The stream-id charset enforced by `finalize()`:
nonempty, `[A-Za-z0-9_-]+`. -/
def isIDChar (c : Char) : Bool :=
  ('A' ≤ c && c ≤ 'Z') || ('a' ≤ c && c ≤ 'z') || ('0' ≤ c && c ≤ '9') || c = '_' || c = '-'

def validID (id : GoStr) : Prop :=
  id ≠ [] ∧ ∀ c ∈ id, isIDChar c

instance (id : GoStr) : Decidable (validID id) := by
  unfold validID; infer_instance

/-! ### Assembler -/

/-- Association-list model of the Go `map[int64]*simpleStreamingMessage`:
lookup by key. -/
def alookup : List (Int × SSM) → Int → Option SSM
  | [], _ => none
  | (k, v) :: rest, n => if k = n then some v else alookup rest n

/-- `delete(m, n)`: remove the key. -/
def aerase (l : List (Int × SSM)) (n : Int) : List (Int × SSM) :=
  l.filter (fun kv => kv.1 ≠ n)

/-- The `Assembler` state.  `packets == nil` (before the first buffered
fragment, and after `close`) is distinguished from an allocated empty map. -/
structure Assembler where
  closed : Bool := false
  current : Int := 0
  final : GoStr := []
  offset : Nat := 0
  packets : Option (List (Int × SSM)) := none
  decodedCache : Option (Int × List Byte) := none
deriving DecidableEq, Repr

/-- `Assembler.close()`: drop all buffered fragments and the decode cache,
mark closed. -/
def aclose (a : Assembler) : Assembler :=
  { a with packets := none, decodedCache := none, closed := true }

/-- `Assembler.getFinalState()`: no terminal reason yet → no error; the
(case-insensitive) `eof` reason → `io.EOF`; anything else → the
`unexpectedEOF` wrapper carrying the reason. -/
def getFinalState (fin : GoStr) : Option GoErr :=
  if fin = [] then none
  else if toLowerStr fin = "eof".data then some .eof
  else some (.unexpectedEOFMsg fin)

/-- The result of `Assembler.getPacket(n)`: the packet (when found), its
decoded bytes, the found flag and the decode error, plus the updated decode
cache. -/
def getPacket (lib : FlateLib) (a : Assembler) (n : Int) :
    (Option SSM × List Byte × Bool × Option GoErr) × Assembler :=
  match a.packets with
  | none => ((some {}, [], false, none), a)
  | some pk =>
    match alookup pk n with
    | none => ((none, [], false, none), a)
    | some msg =>
      match a.decodedCache with
      | some (cn, cd) =>
        if cn = n then ((some msg, cd, true, none), a)
        else
          match encDecode lib msg.fields.encoding msg.message.payload with
          | .error e => ((none, [], true, some e), { a with decodedCache := none })
          | .ok d => ((some msg, d, true, none), { a with decodedCache := some (n, d) })
      | none =>
        match encDecode lib msg.fields.encoding msg.message.payload with
        | .error e => ((none, [], true, some e), { a with decodedCache := none })
        | .ok d => ((some msg, d, true, none), { a with decodedCache := some (n, d) })

/-- `Assembler.Read(p)` with a caller buffer of size `bufSize`: returns the
bytes copied out and the error, plus the updated state. -/
def aread (lib : FlateLib) (a : Assembler) (bufSize : Nat) :
    (List Byte × Option GoErr) × Assembler :=
  match getPacket lib a a.current with
  | ((_, _, _, some e), a1) =>
    -- a decoding error: record it as the terminal reason and close
    (([], some e), aclose { a1 with final := errString e })
  | ((pkt?, buf, found, none), a1) =>
    if ¬ found then
      match getFinalState a1.final with
      | some e => (([], some e), aclose a1)
      | none => (([], none), a1)
    else
      let pkt := pkt?.getD {}
      let a2 :=
        if pkt.fields.finalPacket ≠ [] then
          { a1 with final := trimSpace pkt.fields.finalPacket }
        else a1
      let out := (buf.drop a2.offset).take bufSize
      let a3 := { a2 with offset := a2.offset + out.length }
      let a4 :=
        if buf.length ≤ a3.offset then
          { a3 with
            packets := a3.packets.map (fun pk => aerase pk a3.current)
            current := a3.current + 1
            decodedCache := none
            offset := 0 }
        else a3
      match getFinalState a4.final with
      | some e => ((out, some e), aclose a4)
      | none => ((out, none), a4)

/-- `Assembler.ProcessWRP(ctx, msg)` (with no validators configured): reject
non-SSP messages, decode and validate the fragment, reject when closed,
silently drop late or exact duplicates, otherwise buffer the fragment. -/
def processWRP (a : Assembler) (m : WrpMessage) : Option GoErr × Assembler :=
  if ¬ isSSPCandidate m then (some .errNotHandled, a)
  else
    match ssmFromMsg m with
    | .error e => (some e, a)
    | .ok ssp =>
      if a.closed then (some .errClosed, a)
      else if ssp.fields.packetNumber < a.current then (none, a)
      else
        let pk := a.packets.getD []
        if (alookup pk ssp.fields.packetNumber).isSome then (none, { a with packets := some pk })
        else (none, { a with packets := some (pk ++ [(ssp.fields.packetNumber, ssp)]) })

/-- Feed a list of messages through `ProcessWRP` in order (ingest errors,
which do not occur on the round-trip path, leave the state unchanged and the
next message is processed — exactly what the driving loop does). -/
def ingestAll (a : Assembler) (msgs : List WrpMessage) : Assembler :=
  msgs.foldl (fun st m => (processWRP st m).2) a

/-- Drain the `Assembler` through `Read` with a size-`bufSize` buffer, the way
`io.ReadAll` does: accumulate the returned bytes, stop at the first non-nil
error (which is returned together with that final call's bytes).  `fuel`
bounds the number of calls; on exhaustion the error slot is `none`. -/
def drain (lib : FlateLib) (bufSize : Nat) :
    Nat → Assembler → List Byte × Option GoErr × Assembler
  | 0, a => ([], none, a)
  | fuel + 1, a =>
    match aread lib a bufSize with
    | ((bs, some e), a') => (bs, some e, a')
    | ((bs, none), a') =>
      let rest := drain lib bufSize fuel a'
      (bs ++ rest.1, rest.2.1, rest.2.2)

/-! ### Small helper lemmas -/

theorem alookup_append (l1 l2 : List (Int × SSM)) (n : Int) :
    alookup (l1 ++ l2) n = ((alookup l1 n).rec (alookup l2 n) (fun v => some v) : Option SSM) := by
  induction l1 with
  | nil => simp [alookup]
  | cons kv rest ih =>
    by_cases h : kv.1 = n
    · simp [alookup, h]
    · simp [alookup, h, ih]

theorem alookup_append_right (l : List (Int × SSM)) (n : Int) (s : SSM)
    (h : alookup l n = none) : alookup (l ++ [(n, s)]) n = some s := by
  rw [alookup_append, h]
  simp [alookup]

/-! ### Claim C2: encode/decode round trip for every valid encoding -/

theorem encEncode_identity (lib : FlateLib) (x : List Byte) :
    encEncode lib encIdentity x = .ok x := rfl

theorem encEncode_empty (lib : FlateLib) (x : List Byte) :
    encEncode lib [] x = .ok x := rfl

theorem encEncode_gzip (lib : FlateLib) (x : List Byte) :
    encEncode lib encGzip x = .ok (lib.gzipC x) := rfl

theorem encEncode_deflate (lib : FlateLib) (x : List Byte) :
    encEncode lib encDeflate x = .ok (lib.flateC x) := rfl

theorem encDecode_gzip (lib : FlateLib) (x : List Byte) :
    encDecode lib encGzip x = lib.gzipD x := rfl

theorem encDecode_deflate (lib : FlateLib) (x : List Byte) :
    encDecode lib encDeflate x = lib.flateD x := rfl

/-- Claim C2: for every byte sequence `x` (including the empty one) and every
valid encoding variant (empty, identity, gzip, deflate), decoding the result
of encoding `x` returns exactly `x`. -/
theorem encode_decode_roundtrip (lib : FlateLib) (hs : FlateSpec lib)
    (e : Encoding) (he : encIsValid e = true) (x : List Byte) :
    (encEncode lib e x).bind (encDecode lib e) = .ok x := by
  have he' : ((e = [] ∨ e = encIdentity) ∨ e = encGzip) ∨ e = encDeflate := by
    simpa [encIsValid] using he
  rcases he' with ((h | h) | h) | h <;> subst h
  · rw [encEncode_empty]
    rfl
  · rw [encEncode_identity]
    rfl
  · rw [encEncode_gzip]
    simpa [Except.bind, encDecode_gzip] using hs.gzip_rt x
  · rw [encEncode_deflate]
    simpa [Except.bind, encDecode_deflate] using hs.flate_rt x

/-- Witness for C2: the round trip evaluated at a concrete library, encoding
and byte sequence. -/
theorem encode_decode_roundtrip_witness :
    (encEncode mockLib encGzip [1, 2, 3]).bind (encDecode mockLib encGzip) = .ok [1, 2, 3] :=
  encode_decode_roundtrip mockLib mockLib_spec encGzip (by decide) [1, 2, 3]

/-! ### String and classification lemmas for the wire round trip -/

theorem cutColon_append (k v : GoStr) (hk : ':' ∉ k) :
    cutColon (k ++ ':' :: v) = some (k, v) := by
  induction k with
  | nil => rfl
  | cons c t ih =>
    have hc : c ≠ ':' := fun h => hk (by rw [h]; exact List.mem_cons_self _ _)
    have ht : ':' ∉ t := fun h => hk (List.mem_cons_of_mem _ h)
    simp [cutColon, hc, ih ht]

theorem dropWhile_eq_self_of (p : Char → Bool) (s : GoStr)
    (h : ∀ c ∈ s, p c = false) : s.dropWhile p = s := by
  cases s with
  | nil => rfl
  | cons c t => simp [List.dropWhile_cons, h c (by simp)]

theorem trimSpace_no_ws (s : GoStr) (h : ∀ c ∈ s, isSpaceChar c = false) :
    trimSpace s = s := by
  unfold trimSpace
  rw [dropWhile_eq_self_of _ _ h,
    dropWhile_eq_self_of _ _ (fun c hc => h c (List.mem_reverse.mp hc)),
    List.reverse_reverse]

theorem trimSpace_space_cons (s : GoStr) : trimSpace (' ' :: s) = trimSpace s := rfl

theorem idChar_not_space (c : Char) (h : isIDChar c = true) : isSpaceChar c = false := by
  by_contra hc
  have hsp : isSpaceChar c = true := by revert hc; cases isSpaceChar c <;> simp
  have hd : ((((c = ' ' ∨ c = '\t') ∨ c = '\n') ∨ c = '\x0b') ∨ c = '\x0c') ∨ c = '\r' := by
    simpa [isSpaceChar] using hsp
  rcases hd with ((((h1 | h1) | h1) | h1) | h1) | h1 <;> subst h1 <;>
    exact absurd h (by decide)

theorem digitChar_not_space (d : Nat) (hd : d < 10) : isSpaceChar (digitChar d) = false := by
  interval_cases d <;> decide

theorem natToDecAux_chars :
    ∀ n : Nat, ∀ acc : GoStr, ∀ c ∈ natToDecAux n acc,
      c ∈ acc ∨ ∃ d, d < 10 ∧ c = digitChar d := by
  intro n
  induction n using Nat.strong_induction_on with
  | _ n ih =>
    intro acc c hc
    match n with
    | 0 =>
      rw [natToDecAux] at hc
      exact .inl hc
    | n + 1 =>
      rw [natToDecAux] at hc
      have := ih ((n + 1) / 10) (Nat.div_lt_self (Nat.succ_pos n) (by norm_num)) _ c hc
      rcases this with h | h
      · rcases List.mem_cons.mp h with h1 | h1
        · exact .inr ⟨(n + 1) % 10, Nat.mod_lt _ (by norm_num), h1⟩
        · exact .inl h1
      · exact .inr h

theorem natToDec_chars (n : Nat) (c : Char) (hc : c ∈ natToDec n) :
    ∃ d, d < 10 ∧ c = digitChar d := by
  unfold natToDec at hc
  by_cases h : n = 0
  · rw [if_pos h] at hc
    simp at hc
    exact ⟨0, by norm_num, by rw [hc]; rfl⟩
  · rw [if_neg h] at hc
    rcases natToDecAux_chars n [] c hc with h1 | h1
    · simp at h1
    · exact h1

theorem trimSpace_natToDec (n : Nat) : trimSpace (natToDec n) = natToDec n :=
  trimSpace_no_ws _ (fun c hc => by
    obtain ⟨d, hd, hcd⟩ := natToDec_chars n c hc
    rw [hcd]
    exact digitChar_not_space d hd)

theorem trimSpace_validID (id : GoStr) (hid : validID id) : trimSpace id = id :=
  trimSpace_no_ws _ (fun c hc => idChar_not_space c (hid.2 c hc))

/-- Classification of a constructed `key: value` line reduces to the key
comparison chain on the (trimmed, lowered) key. -/
theorem classifyLine_build (k v : GoStr) (hk : ':' ∉ k) :
    classifyLine (k ++ ':' :: v) =
      (if toLowerStr (trimSpace k) = keyStreamID then .sid (trimSpace v)
       else if toLowerStr (trimSpace k) = keyPacketNumber then .pkt (trimSpace v)
       else if toLowerStr (trimSpace k) = keyEstimatedLength then .elen (trimSpace v)
       else if toLowerStr (trimSpace k) = keyFinalPacket then .fpkt (trimSpace v)
       else if toLowerStr (trimSpace k) = keyEncoding then .enc (trimSpace v)
       else .plain) := by
  unfold classifyLine
  rw [cutColon_append k v hk]

theorem line_as_append (k : GoStr) (v : GoStr) :
    k ++ ": ".data ++ v = k ++ ':' :: (' ' :: v) := by
  rw [List.append_assoc]
  rfl

theorem classify_sid_line (id : GoStr) (hid : validID id) :
    classifyLine (keyStreamID ++ ": ".data ++ id) = .sid id := by
  rw [line_as_append, classifyLine_build _ _ (by decide)]
  rw [show toLowerStr (trimSpace keyStreamID) = keyStreamID from by decide]
  rw [if_pos rfl, trimSpace_space_cons, trimSpace_validID id hid]

theorem classify_pkt_line (n : Int) (hn : 0 ≤ n) :
    classifyLine (keyPacketNumber ++ ": ".data ++ intToDec n) = .pkt (natToDec n.toNat) := by
  rw [line_as_append, classifyLine_build _ _ (by decide)]
  rw [show toLowerStr (trimSpace keyPacketNumber) = keyPacketNumber from by decide]
  rw [if_neg (by decide), if_pos rfl, trimSpace_space_cons, intToDec_nonneg n hn,
    trimSpace_natToDec]

theorem classify_elen_line (e : Nat) :
    classifyLine (keyEstimatedLength ++ ": ".data ++ natToDec e) = .elen (natToDec e) := by
  rw [line_as_append, classifyLine_build _ _ (by decide)]
  rw [show toLowerStr (trimSpace keyEstimatedLength) = keyEstimatedLength from by decide]
  rw [if_neg (by decide), if_neg (by decide), if_pos rfl, trimSpace_space_cons,
    trimSpace_natToDec]

theorem classify_fpkt_eof_line :
    classifyLine (keyFinalPacket ++ ": ".data ++ "eof".data) = .fpkt "eof".data := by
  decide

theorem classify_enc_line (e : Encoding) (he : e = encGzip ∨ e = encDeflate) :
    classifyLine (keyEncoding ++ ": ".data ++ encString e) = .enc e := by
  rcases he with h | h <;> subst h <;> decide

/-! ### split lemmas -/

/-- One loop iteration of `split`, as a function of the line's class. -/
def splitStep (acc : HeaderMap) (others : List GoStr) (h : GoStr) : HeaderMap × List GoStr :=
  match classifyLine h with
  | .sid v => ({ acc with streamID := some v }, others)
  | .pkt v => ({ acc with packetNumber := some v }, others)
  | .elen v => ({ acc with estimatedLength := some v }, others)
  | .fpkt v => ({ acc with finalPacket := some v }, others)
  | .enc v => ({ acc with encoding := some v }, others)
  | .plain => (acc, others ++ [h])

theorem splitGo_cons (acc : HeaderMap) (others : List GoStr) (h : GoStr) (t : List GoStr) :
    splitGo acc others (h :: t) =
      splitGo (splitStep acc others h).1 (splitStep acc others h).2 t := by
  cases hc : classifyLine h <;> simp only [splitGo, splitStep, hc]

theorem splitGo_append (acc : HeaderMap) (others : List GoStr) (xs ys : List GoStr) :
    splitGo acc others (xs ++ ys) =
      splitGo (splitGo acc others xs).1 (splitGo acc others xs).2 ys := by
  induction xs generalizing acc others with
  | nil => rfl
  | cons h t ih =>
    rw [List.cons_append, splitGo_cons, ih, splitGo_cons]

theorem splitGo_all_plain (xs : List GoStr) (acc : HeaderMap) (others : List GoStr)
    (h : ∀ l ∈ xs, classifyLine l = .plain) :
    splitGo acc others xs = (acc, others ++ xs) := by
  induction xs generalizing others with
  | nil => simp [splitGo]
  | cons l t ih =>
    unfold splitGo
    rw [h l (by simp)]
    rw [ih (others ++ [l]) (fun m hm => h m (by simp [hm]))]
    simp

theorem splitGo_others_plain :
    ∀ (xs : List GoStr) (acc : HeaderMap) (others : List GoStr),
      (∀ l ∈ others, classifyLine l = .plain) →
      ∀ l ∈ (splitGo acc others xs).2, classifyLine l = .plain := by
  intro xs
  induction xs with
  | nil => intro acc others h l hl; exact h l hl
  | cons x t ih =>
    intro acc others h l hl
    unfold splitGo at hl
    cases hx : classifyLine x with
    | sid v => rw [hx] at hl; exact ih _ _ h l hl
    | pkt v => rw [hx] at hl; exact ih _ _ h l hl
    | elen v => rw [hx] at hl; exact ih _ _ h l hl
    | fpkt v => rw [hx] at hl; exact ih _ _ h l hl
    | enc v => rw [hx] at hl; exact ih _ _ h l hl
    | plain =>
      rw [hx] at hl
      refine ih _ _ (fun m hm => ?_) l hl
      rcases List.mem_append.mp hm with h1 | h1
      · exact h m h1
      · rw [List.mem_singleton.mp h1]; exact hx

theorem split_others_plain (hs : List GoStr) :
    ∀ l ∈ (split hs).2, classifyLine l = .plain :=
  splitGo_others_plain hs {} [] (by simp)

theorem splitStep_sid (acc : HeaderMap) (others : List GoStr) (h v : GoStr)
    (hc : classifyLine h = .sid v) :
    splitStep acc others h = ({ acc with streamID := some v }, others) := by
  unfold splitStep
  rw [hc]

theorem splitStep_pkt (acc : HeaderMap) (others : List GoStr) (h v : GoStr)
    (hc : classifyLine h = .pkt v) :
    splitStep acc others h = ({ acc with packetNumber := some v }, others) := by
  unfold splitStep
  rw [hc]

theorem splitStep_elen (acc : HeaderMap) (others : List GoStr) (h v : GoStr)
    (hc : classifyLine h = .elen v) :
    splitStep acc others h = ({ acc with estimatedLength := some v }, others) := by
  unfold splitStep
  rw [hc]

theorem splitStep_fpkt (acc : HeaderMap) (others : List GoStr) (h v : GoStr)
    (hc : classifyLine h = .fpkt v) :
    splitStep acc others h = ({ acc with finalPacket := some v }, others) := by
  unfold splitStep
  rw [hc]

theorem splitStep_enc (acc : HeaderMap) (others : List GoStr) (h v : GoStr)
    (hc : classifyLine h = .enc v) :
    splitStep acc others h = ({ acc with encoding := some v }, others) := by
  unfold splitStep
  rw [hc]

/-- Splitting a wire header list produced by `ssmHeaders` (appended after the
template's pass-through lines) recovers exactly the emitted control values
and leaves the pass-through lines untouched. -/
theorem split_wire (others : List GoStr) (hothers : ∀ l ∈ others, classifyLine l = .plain)
    (id : GoStr) (hid : validID id) (n : Int) (hn : 0 ≤ n) (est : Nat)
    (fp : GoStr) (hfp : fp = [] ∨ fp = "EOF".data)
    (enc : Encoding)
    (henc : ((enc = [] ∨ enc = encIdentity) ∨ enc = encGzip) ∨ enc = encDeflate) :
    split (others ++ ssmHeaders ⟨id, n, est, fp, enc⟩) =
      ({ streamID := some id
         packetNumber := some (natToDec n.toNat)
         estimatedLength := if est = 0 then none else some (natToDec est)
         finalPacket := if fp = [] then none else some "eof".data
         encoding := if enc = encGzip ∨ enc = encDeflate then some enc else none }, others) := by
  have hsplit : split (others ++ ssmHeaders ⟨id, n, est, fp, enc⟩) =
      splitGo {} others (ssmHeaders ⟨id, n, est, fp, enc⟩) := by
    unfold split
    rw [splitGo_append, splitGo_all_plain others {} [] hothers]
    simp only [List.nil_append]
  rw [hsplit]
  have hb1 : ∀ (acc : HeaderMap) (o : List GoStr),
      splitGo acc o (if id ≠ [] then [keyStreamID ++ ": ".data ++ id] else []) =
        ({ acc with streamID := some id }, o) := by
    intro acc o
    rw [if_pos hid.1, splitGo_cons, splitStep_sid _ _ _ _ (classify_sid_line id hid)]
    rfl
  have hb2 : ∀ (acc : HeaderMap) (o : List GoStr),
      splitGo acc o (if 0 ≤ n then [keyPacketNumber ++ ": ".data ++ intToDec n] else []) =
        ({ acc with packetNumber := some (natToDec n.toNat) }, o) := by
    intro acc o
    rw [if_pos hn, splitGo_cons, splitStep_pkt _ _ _ _ (classify_pkt_line n hn)]
    rfl
  have hb3 : ∀ (acc : HeaderMap) (o : List GoStr),
      splitGo acc o (if 0 < est then [keyEstimatedLength ++ ": ".data ++ natToDec est] else []) =
        ((if est = 0 then acc else { acc with estimatedLength := some (natToDec est) }), o) := by
    intro acc o
    by_cases hest : est = 0
    · rw [if_neg (by omega), if_pos hest]
      rfl
    · rw [if_pos (Nat.pos_of_ne_zero hest), if_neg hest, splitGo_cons,
        splitStep_elen _ _ _ _ (classify_elen_line est)]
      rfl
  have hb4 : ∀ (acc : HeaderMap) (o : List GoStr),
      splitGo acc o
          (if fp ≠ [] then
            [keyFinalPacket ++ ": ".data ++
              (if toLowerStr (trimSpace fp) = "eof".data then "eof".data else fp)]
           else []) =
        ((if fp = [] then acc else { acc with finalPacket := some "eof".data }), o) := by
    intro acc o
    rcases hfp with hfpe | hfpe <;> subst hfpe
    · rfl
    · rw [if_pos (show ("EOF".data : GoStr) ≠ [] from by decide)]
      rw [show (if toLowerStr (trimSpace "EOF".data) = "eof".data then "eof".data
            else "EOF".data) = "eof".data from by decide]
      rw [if_neg (show ¬ ("EOF".data : GoStr) = [] from by decide)]
      rw [splitGo_cons, splitStep_fpkt _ _ _ _ classify_fpkt_eof_line]
      rfl
  have hb5 : ∀ (acc : HeaderMap) (o : List GoStr),
      splitGo acc o
          (if encIsValid enc && !encIs enc encIdentity then
            [keyEncoding ++ ": ".data ++ encString enc] else []) =
        ((if enc = encGzip ∨ enc = encDeflate then { acc with encoding := some enc }
          else acc), o) := by
    intro acc o
    rcases henc with ((he | he) | he) | he <;> subst he
    · rw [if_neg (by decide), if_neg (by decide)]
      rfl
    · rw [if_neg (by decide), if_neg (by decide)]
      rfl
    · rw [if_pos (by decide), if_pos (.inl rfl)]
      have hcl := classify_enc_line encGzip (.inl rfl)
      rw [show encString encGzip = encGzip from by decide] at hcl ⊢
      rw [splitGo_cons, splitStep_enc _ _ _ _ hcl]
      rfl
    · rw [if_pos (by decide), if_pos (.inr rfl)]
      have hcl := classify_enc_line encDeflate (.inr rfl)
      rw [show encString encDeflate = encDeflate from by decide] at hcl ⊢
      rw [splitGo_cons, splitStep_enc _ _ _ _ hcl]
      rfl
  simp only [ssmHeaders, splitGo_append, hb1, hb2, hb3, hb4, hb5]
  by_cases hest : est = 0 <;> by_cases hfpe : fp = [] <;>
    by_cases hence : enc = encGzip ∨ enc = encDeflate <;>
      simp [hest, hfpe, hence]

/-! ### Parse-back of wire control values -/

theorem parsePN_natToDec (n : Int) (hn : 0 ≤ n) (hn2 : n < 2 ^ 63) :
    parsePN (some (natToDec n.toNat)) = .ok n := by
  unfold parsePN
  by_cases hn0 : n = 0
  · subst hn0
    rfl
  · have htn : n.toNat ≠ 0 := by omega
    simp only [isZero_natToDec n.toNat htn]
    rw [if_neg (by simp), if_neg (natToDec_ne_nil n.toNat)]
    rw [goParseInt_natToDec n.toNat (by omega)]
    simp only [Except.ok.injEq]
    omega

theorem parseEL_natToDec (e : Nat) (he : e ≠ 0) (he2 : e < 2 ^ 64) :
    parseEL (some (natToDec e)) = .ok e := by
  unfold parseEL
  simp only [isZero_natToDec e he]
  rw [if_neg (by simp [natToDec_ne_nil e])]
  rw [goParseUint_natToDec e he2]

theorem parseFP_eof : parseFP (some "eof".data) = "eof".data := by decide

/-- Decoding the header map recovered from a wire fragment restores the
emitted control fields (with the final-packet marker normalised to `eof` and
identity-equivalent encodings collapsed to the empty string). -/
theorem ssmFrom_wire (id : GoStr) (n : Int) (hn : 0 ≤ n) (hn2 : n < 2 ^ 63)
    (est : Nat) (hest : est < 2 ^ 64) (fp : GoStr) (enc : Encoding) :
    ssmFrom
      { streamID := some id
        packetNumber := some (natToDec n.toNat)
        estimatedLength := if est = 0 then none else some (natToDec est)
        finalPacket := if fp = [] then none else some "eof".data
        encoding := if enc = encGzip ∨ enc = encDeflate then some enc else none } =
      .ok { streamID := id
            packetNumber := n
            estimatedLength := est
            finalPacket := if fp = [] then [] else "eof".data
            encoding := if enc = encGzip ∨ enc = encDeflate then enc else [] } := by
  unfold ssmFrom
  rw [parsePN_natToDec n hn hn2]
  by_cases hest0 : est = 0
  · by_cases hfp0 : fp = [] <;>
      by_cases hence : enc = encGzip ∨ enc = encDeflate <;>
        simp [hest0, hfp0, hence, parseEL, parseFP_eof, parseFP, Bind.bind, Except.bind, Pure.pure, Except.pure]
  · by_cases hfp0 : fp = [] <;>
      by_cases hence : enc = encGzip ∨ enc = encDeflate <;>
        simp [hest0, hfp0, hence, parseEL_natToDec est hest0 hest, parseFP_eof, parseFP,
          Bind.bind, Except.bind, Pure.pure, Except.pure]

theorem ssmValidate_ok (f : SSPFields) (h1 : f.streamID ≠ []) (h2 : 0 ≤ f.packetNumber)
    (h3 : encIsValid f.encoding = true) : ssmValidate f = none := by
  unfold ssmValidate
  rw [if_pos ⟨h1, h2, h3⟩]

/-- `To` on a well-formed streaming message: validation passes and the wire
message is the embedded message with the non-reserved template lines followed
by the rendered control headers. -/
theorem ssmToMsg_ok (msg : WrpMessage) (f : SSPFields) (h1 : f.streamID ≠ [])
    (h2 : 0 ≤ f.packetNumber) (h3 : encIsValid f.encoding = true) :
    ssmToMsg ⟨msg, f⟩ =
      .ok { msg with headers := (split msg.headers).2 ++ ssmHeaders f } := by
  unfold ssmToMsg
  rw [ssmValidate_ok f h1 h2 h3]

/-- Decoding a produced wire message: it is recognised as an SSP candidate and
`From` recovers the control fields (final packet normalised to `eof`,
identity-equivalent encodings collapsed to the empty string), with the
pass-through lines as the embedded message's headers. -/
theorem wire_decode (others : List GoStr) (hothers : ∀ l ∈ others, classifyLine l = .plain)
    (mt : MsgType) (pl : List Byte) (tuid : GoStr)
    (id : GoStr) (hid : validID id) (n : Int) (hn : 0 ≤ n) (hn2 : n < 2 ^ 63)
    (est : Nat) (hest : est < 2 ^ 64)
    (fp : GoStr) (hfp : fp = [] ∨ fp = "EOF".data)
    (enc : Encoding)
    (henc : ((enc = [] ∨ enc = encIdentity) ∨ enc = encGzip) ∨ enc = encDeflate) :
    isSSPCandidate ⟨mt, others ++ ssmHeaders ⟨id, n, est, fp, enc⟩, pl, tuid⟩ = true ∧
    ssmFromMsg ⟨mt, others ++ ssmHeaders ⟨id, n, est, fp, enc⟩, pl, tuid⟩ =
      .ok ⟨⟨mt, others, pl, tuid⟩,
        ⟨id, n, est, (if fp = [] then [] else "eof".data),
          (if enc = encGzip ∨ enc = encDeflate then enc else [])⟩⟩ := by
  have hsw := split_wire others hothers id hid n hn est fp hfp enc henc
  have hg := ssmFrom_wire id n hn hn2 est hest fp enc
  have hv : ssmValidate
      ⟨id, n, est, (if fp = [] then [] else "eof".data),
        (if enc = encGzip ∨ enc = encDeflate then enc else [])⟩ = none := by
    refine ssmValidate_ok _ hid.1 hn ?_
    by_cases hence : enc = encGzip ∨ enc = encDeflate
    · rcases hence with he | he <;> simp [he, encIsValid]
    · simp [hence, encIsValid]
  constructor
  · unfold isSSPCandidate
    simp only [hsw]
    rfl
  · unfold ssmFromMsg
    simp only [hsw, hg, hv]

/-! ### Claim C6: decoding of empty header values -/

/-- A concrete envelope whose `stream-final-packet` header is present with an
empty value. -/
def c6Msg : WrpMessage :=
  { mtype := .simpleEvent
    headers := ["stream-id: s".data, "stream-packet-number: 0".data,
                "stream-final-packet:".data] }

/-- Counterexample to claim C6 as stated: decoding an envelope whose
`stream-final-packet` header is present with an empty value leaves the decoded
final-packet field empty (no terminal marker at all), not the literal `eof`
marker. -/
theorem c6_counterexample :
    (ssmFromMsg c6Msg).toOption.map (fun s => s.fields.finalPacket) = some [] ∧
      (some ([] : GoStr) ≠ some "eof".data) := by
  constructor
  · rfl
  · decide

/-- Claim C6 as amended: when the header codec decodes a reserved key present
with an empty value, the numeric fields (packet number, estimated length)
decode as "not provided" (the `-1` absent sentinel, resp. `0`) rather than as
parse errors — but the final-packet field decodes to the empty string, i.e.
the fragment is not treated as terminal. -/
theorem c6_empty_values_amended (hm : HeaderMap)
    (hfp : hm.finalPacket = some [])
    (hpn : hm.packetNumber = some [])
    (hel : hm.estimatedLength = some []) :
    ssmFrom hm = .ok
      { streamID := hm.streamID.getD []
        packetNumber := -1
        estimatedLength := 0
        finalPacket := []
        encoding := hm.encoding.getD [] } := by
  unfold ssmFrom
  rw [hfp, hpn, hel]
  rfl

/-- Witness for the amended C6 at a concrete header map. -/
theorem c6_empty_values_witness :
    ssmFrom { streamID := some ['s'], packetNumber := some [],
              estimatedLength := some [], finalPacket := some [] } =
      .ok { streamID := ['s'], packetNumber := -1, estimatedLength := 0,
            finalPacket := [], encoding := [] } :=
  c6_empty_values_amended _ rfl rfl rfl

/-! ### Claim C7: late and exact duplicates are accepted with no state change -/

/-- Claim C7: on an open Assembler, ingesting a well-formed SSP fragment whose
sequence number is strictly below the cursor, or whose sequence number is
already buffered, returns success (`nil` error) and leaves the whole state
unchanged. -/
theorem ingest_duplicate_noop (a : Assembler) (m : WrpMessage) (ssp : SSM)
    (hopen : a.closed = false)
    (hcand : isSSPCandidate m = true)
    (hssp : ssmFromMsg m = .ok ssp)
    (hdup : ssp.fields.packetNumber < a.current ∨
      (alookup (a.packets.getD []) ssp.fields.packetNumber).isSome) :
    processWRP a m = (none, a) := by
  rcases a with ⟨ac, cur, fin, off, pks, dc⟩
  simp only at hopen hdup
  subst hopen
  unfold processWRP
  rw [hcand, hssp]
  simp only [not_true_eq_false, if_false, Bool.false_eq_true]
  by_cases hlt : ssp.fields.packetNumber < cur
  · simp [hlt]
  · have hbuf : (alookup (pks.getD []) ssp.fields.packetNumber).isSome := by
      rcases hdup with h | h
      · exact absurd h hlt
      · exact h
    obtain ⟨pk, hpk⟩ : ∃ pk, pks = some pk := by
      cases hp : pks with
      | none => rw [hp] at hbuf; simp [alookup] at hbuf
      | some pk => exact ⟨pk, rfl⟩
    subst hpk
    simp only [Option.getD_some] at hbuf
    simp [hlt, hbuf]

/-- Witness for C7: a concrete open Assembler holding fragment 4 with cursor
at 4; re-ingesting fragment 4 (exact duplicate) and ingesting fragment 1
(late duplicate) both succeed without touching the state. -/
theorem ingest_duplicate_noop_witness :
    processWRP
      { current := 4
        packets := some [(4, { fields := { streamID := ['s'], packetNumber := 4 } })] }
      { mtype := .simpleEvent
        headers := ["stream-id: s".data, "stream-packet-number: 4".data] } =
      (none,
        { current := 4
          packets := some [(4, { fields := { streamID := ['s'], packetNumber := 4 } })] }) := by
  refine ingest_duplicate_noop _ _
    { message := { mtype := .simpleEvent }
      fields := { streamID := ['s'], packetNumber := 4 } }
    rfl (by decide) rfl ?_
  right
  decide

/-! ### Claim C8: deduplication keys only on the sequence number -/

/-- Claim C8: when a fragment with sequence number `n` (at or above the
cursor, not yet buffered) has been ingested, ingesting any second well-formed
fragment carrying the same number `n` — its payload and control headers may
differ arbitrarily — returns success with no state change, and the buffered
fragment at `n` is still the first one. -/
theorem ingest_dedup_by_number (a : Assembler) (m1 m2 : WrpMessage) (s1 s2 : SSM) (n : Int)
    (hopen : a.closed = false)
    (hc1 : isSSPCandidate m1 = true) (h1 : ssmFromMsg m1 = .ok s1)
    (hn1 : s1.fields.packetNumber = n)
    (hcur : a.current ≤ n)
    (hnew : alookup (a.packets.getD []) n = none)
    (hc2 : isSSPCandidate m2 = true) (h2 : ssmFromMsg m2 = .ok s2)
    (hn2 : s2.fields.packetNumber = n) :
    processWRP a m1 =
      (none, { a with packets := some (a.packets.getD [] ++ [(n, s1)]) }) ∧
    processWRP { a with packets := some (a.packets.getD [] ++ [(n, s1)]) } m2 =
      (none, { a with packets := some (a.packets.getD [] ++ [(n, s1)]) }) ∧
    alookup (a.packets.getD [] ++ [(n, s1)]) n = some s1 := by
  rcases a with ⟨ac, cur, fin, off, pks, dc⟩
  simp only at hopen hcur hnew
  subst hopen
  have hlook : alookup (pks.getD [] ++ [(n, s1)]) n = some s1 :=
    alookup_append_right _ _ _ hnew
  have hfirst : processWRP ⟨false, cur, fin, off, pks, dc⟩ m1 =
      (none, ⟨false, cur, fin, off, some (pks.getD [] ++ [(n, s1)]), dc⟩) := by
    unfold processWRP
    rw [hc1, h1]
    have hnlt : ¬ (n < cur) := by omega
    simp [hn1, hnlt, hnew]
  refine ⟨hfirst, ?_, hlook⟩
  unfold processWRP
  rw [hc2, h2]
  have hnlt : ¬ (n < cur) := by omega
  simp [hn2, hnlt, hlook]

/-- Witness for C8: fragment 0 with payload `[1]` is buffered; a second
fragment numbered 0 with a different payload `[2]` (and an extra header) is
silently dropped and the first fragment's bytes remain the buffered ones. -/
theorem ingest_dedup_by_number_witness :
    processWRP {}
      { mtype := .simpleEvent
        headers := ["stream-id: s".data, "stream-packet-number: 0".data]
        payload := [1] } =
      (none, { packets := some [(0,
        { message := { mtype := .simpleEvent, payload := [1] }
          fields := { streamID := ['s'], packetNumber := 0 } })] }) ∧
    processWRP { packets := some [(0,
        { message := { mtype := .simpleEvent, payload := [1] }
          fields := { streamID := ['s'], packetNumber := 0 } })] }
      { mtype := .simpleEvent
        headers := ["stream-id: s".data, "stream-packet-number: 0".data,
                    "stream-final-packet: eof".data]
        payload := [2] } =
      (none, { packets := some [(0,
        { message := { mtype := .simpleEvent, payload := [1] }
          fields := { streamID := ['s'], packetNumber := 0 } })] }) ∧
    alookup [(0,
        { message := { mtype := .simpleEvent, payload := [1] }
          fields := { streamID := ['s'], packetNumber := 0 } })] 0 = some
        { message := { mtype := .simpleEvent, payload := [1] }
          fields := { streamID := ['s'], packetNumber := 0 } } :=
  ingest_dedup_by_number {} _ _
    { message := { mtype := .simpleEvent, payload := [1] }
      fields := { streamID := ['s'], packetNumber := 0 } }
    { message := { mtype := .simpleEvent, payload := [2] }
      fields := { streamID := ['s'], packetNumber := 0, finalPacket := "eof".data } }
    0 rfl (by decide) rfl rfl (by decide) rfl (by decide) rfl rfl

/-! ### Claim C10: GetStreamID -/

/-- Claim C10: `GetStreamID` returns the (trimmed) `stream-id` header value
with no error for every simple-event message carrying that key — regardless
of any other SSP field, including a missing packet number — and returns the
not-handled error with an empty id for every other message kind or when the
key is absent. -/
theorem getStreamID_spec :
    (∀ (m : WrpMessage) (v : GoStr), m.mtype = .simpleEvent →
      (split m.headers).1.streamID = some v → GetStreamID m = (v, none)) ∧
    (∀ m : WrpMessage, m.mtype ≠ .simpleEvent →
      GetStreamID m = ([], some .errNotHandled)) ∧
    (∀ m : WrpMessage, m.mtype = .simpleEvent → (split m.headers).1.streamID = none →
      GetStreamID m = ([], some .errNotHandled)) := by
  refine ⟨fun m v ht hv => ?_, fun m ht => ?_, fun m ht hv => ?_⟩
  · unfold GetStreamID
    rw [hv]
    simp [ht]
  · unfold GetStreamID
    simp [ht]
  · unfold GetStreamID
    rw [hv]
    simp [ht]

/-- Witness for C10: a simple event whose `stream-id` line needs trimming and
whose packet number is absent yields the id; a request-response message and a
simple event without the key are both not handled. -/
theorem getStreamID_spec_witness :
    GetStreamID { mtype := .simpleEvent,
                  headers := ["unrelated: x".data, " Stream-ID :  Test-Id ".data] } =
      ("Test-Id".data, none) ∧
    GetStreamID { mtype := .simpleRequestResponse,
                  headers := ["stream-id: s".data] } = ([], some .errNotHandled) ∧
    GetStreamID { mtype := .simpleEvent, headers := ["unrelated: x".data] } =
      ([], some .errNotHandled) :=
  ⟨getStreamID_spec.1 _ _ rfl (by decide),
   getStreamID_spec.2.1 _ (by decide),
   getStreamID_spec.2.2 _ rfl (by decide)⟩

/-! ### Claim C4: Read on a terminal-marker fragment -/

/-- The concrete Assembler state for the C4 counterexample: cursor 0, the
buffered fragment 0 carries the terminal marker `EOF` and two payload bytes
(identity encoding). -/
def c4Asm : Assembler :=
  { packets := some [(0,
      { message := { payload := [104, 105] }
        fields := { streamID := ['s'], packetNumber := 0, finalPacket := "EOF".data } })] }

/-- Counterexample to claim C4 as stated: a `Read` that copies two bytes out
of the marker-bearing fragment returns those bytes together with the non-nil
terminal error `io.EOF` in the same call — not a nil error. -/
theorem c4_counterexample :
    (aread mockLib c4Asm 5).1 = ([104, 105], some .eof) ∧
      ([104, 105] : List Byte) ≠ [] := by
  constructor
  · rfl
  · decide

/-- Claim C4 as amended: whenever the fragment at the cursor is present,
decodes successfully and carries a terminal marker (whose trimmed text is
nonempty), a `Read` returns the copied bytes *together with* the terminal
outcome (end-of-stream for `eof`, the unexpected-EOF wrapper otherwise) in
that same call, and closes the Assembler — even when the fragment's bytes
have not all been delivered yet. -/
theorem read_terminal_marker_amended (lib : FlateLib) (a : Assembler)
    (pk : List (Int × SSM)) (ssp : SSM) (dec : List Byte) (c : Nat)
    (hpk : a.packets = some pk)
    (hlook : alookup pk a.current = some ssp)
    (hcache : a.decodedCache = none)
    (hdec : encDecode lib ssp.fields.encoding ssp.message.payload = .ok dec)
    (hmark : trimSpace ssp.fields.finalPacket ≠ []) :
    (aread lib a c).1 =
      ((dec.drop a.offset).take c,
        some (if toLowerStr (trimSpace ssp.fields.finalPacket) = "eof".data then .eof
              else .unexpectedEOFMsg (trimSpace ssp.fields.finalPacket))) ∧
    (aread lib a c).2.closed = true := by
  have hmark' : ssp.fields.finalPacket ≠ [] := by
    intro h
    apply hmark
    rw [h]
    rfl
  unfold aread
  unfold getPacket
  simp only [hpk, hlook, hcache, hdec]
  unfold getFinalState
  by_cases heof : toLowerStr (trimSpace ssp.fields.finalPacket) = "eof".data <;>
    simp [heof, hmark, hmark', aclose, apply_ite Assembler.final, apply_ite Assembler.closed]

/-- Witness for the amended C4: the concrete state above, read with a buffer
of size 1 — one byte is delivered together with `io.EOF`, the second payload
byte is dropped, and the Assembler is closed. -/
theorem read_terminal_marker_witness :
    (aread mockLib c4Asm 1).1 = ([104], some .eof) ∧
      (aread mockLib c4Asm 1).2.closed = true := by
  have h := read_terminal_marker_amended mockLib c4Asm _ _ [104, 105] 1 rfl rfl rfl rfl
    (by decide)
  simpa using h

/-! ### Claim C5: the transaction-id generator -/

/-- A packetizer whose generator always fails, about to read its first
fragment. -/
def c5PackErr : Packetizer :=
  { stream := [([1], none)]
    id := ['a']
    maxPacketSize := 1
    encoding := []
    txGen := some (fun _ => .error (.other "gen failed".data)) }

/-- Like `c5PackErr` but with a succeeding generator. -/
def c5PackOk : Packetizer :=
  { stream := [([1], none)]
    id := ['a']
    maxPacketSize := 1
    encoding := []
    txGen := some (fun _ => .ok "tid-0".data) }

/-- Counterexample to claim C5 as stated: when the generator fails, the call
does abort with no fragment and the generator's error, but the sequence
counter has already been advanced from 0 to 1 — the claim said the sequence
state is not advanced. -/
theorem c5_counterexample :
    (nextRaw mockLib false {} c5PackErr).map
        (fun r => (r.1.1.isSome, r.1.2, r.2.currentPacketNumber)) =
      some (false, some (.other "gen failed".data), 1) ∧ (1 : Int) ≠ 0 := by
  constructor
  · rfl
  · decide

/-- Claim C5 as amended: on a non-terminal call whose read loop produced a
result, a configured generator is invoked exactly once (the invocation count
rises by one); on failure the call aborts returning no fragment and the
generator's error, but the sequence counter has nevertheless been advanced;
on success the generated id is attached to the outgoing fragment. -/
theorem nextRaw_txGen_amended (lib : FlateLib) (template : WrpMessage) (p : Packetizer)
    (g : Nat → Except GoErr GoStr)
    (hout : p.outcome = none)
    (hgen : p.txGen = some g)
    (bs : List Byte) (rerr : Option GoErr) (rest : List ReadEvt)
    (hread : readPhase false p.stream = some ((bs, rerr), rest)) :
    (∀ e, g p.txCount = .error e →
      ∃ p', nextRaw lib false template p = some ((none, some e), p') ∧
        p'.currentPacketNumber = p.currentPacketNumber + 1 ∧
        p'.txCount = p.txCount + 1) ∧
    (∀ tid, g p.txCount = .ok tid →
      ∃ ssm o p', nextRaw lib false template p = some ((some ssm, o), p') ∧
        ssm.message.transactionUUID = tid ∧
        p'.currentPacketNumber = p.currentPacketNumber + 1 ∧
        p'.txCount = p.txCount + 1) := by
  constructor
  · intro e he
    unfold nextRaw
    rw [hout, hread, hgen]
    simp only [he]
    exact ⟨_, rfl, rfl, rfl⟩
  · intro tid htid
    unfold nextRaw
    rw [hout, hread, hgen]
    simp only [htid]
    exact ⟨_, _, _, rfl, rfl, rfl, rfl⟩

/-- Witness for the amended C5, at the two concrete packetizers above. -/
theorem nextRaw_txGen_witness :
    (∃ p', nextRaw mockLib false {} c5PackErr =
        some ((none, some (.other "gen failed".data)), p') ∧
      p'.currentPacketNumber = c5PackErr.currentPacketNumber + 1 ∧
      p'.txCount = c5PackErr.txCount + 1) ∧
    (∃ ssm o p', nextRaw mockLib false {} c5PackOk = some ((some ssm, o), p') ∧
      ssm.message.transactionUUID = "tid-0".data ∧
      p'.currentPacketNumber = c5PackOk.currentPacketNumber + 1 ∧
      p'.txCount = c5PackOk.txCount + 1) :=
  ⟨(nextRaw_txGen_amended mockLib {} c5PackErr _ rfl rfl [1] none [] rfl).1 _ rfl,
   (nextRaw_txGen_amended mockLib {} c5PackOk _ rfl rfl [1] none [] rfl).2 _ rfl⟩

/-! ### Claim C9: behaviour after the terminal call -/

theorem encStep_error (lib : FlateLib) (e : Encoding) (bs : List Byte) (ee : GoErr)
    (h : encStep lib e bs = .error ee) : ee = .errUnsupportedEncoding := by
  unfold encStep at h
  by_cases hbs : bs = []
  · simp [hbs] at h
  · simp only [hbs, ne_eq, not_false_eq_true, if_true, if_pos] at h
    unfold encEncode at h
    by_cases h1 : (encIs e encIdentity : Bool) <;> simp [h1] at h
    by_cases h2 : (goHasPrefix e encGzip : Bool) <;> simp [h2] at h
    by_cases h3 : (goHasPrefix e encDeflate : Bool) <;> simp [h3] at h
    exact h.symm

theorem fp2Of_outcome (fpold : GoStr) (rerr : Option GoErr)
    (er : Except GoErr (List Byte)) (e : GoErr)
    (hout : outcome2Of rerr er = some e)
    (hns : ∀ ee, er = .error ee → ee ≠ .eof) :
    fp2Of (fpAfterRead fpold rerr) er = (if e = .eof then "EOF".data else errString e) := by
  cases er with
  | ok d =>
    cases rerr with
    | none => simp [outcome2Of] at hout
    | some re =>
      simp only [outcome2Of, Option.some.injEq] at hout
      subst hout
      rfl
  | error ee =>
    simp only [outcome2Of, Option.some.injEq] at hout
    have hne : ee ≠ .eof := hns ee rfl
    rw [← hout]
    simp [fp2Of, hne]

/-- Claim C9: once a `Next` call has stored a terminal outcome, every
subsequent call returns no message at all together with the identical stored
outcome and leaves the packetizer untouched (in particular the byte source is
not read again); a message is only ever returned from a not-yet-terminal
state; and when a `nextRaw` call returns a fragment alongside an error, that
fragment carries the final-packet marker (the literal `EOF` for a clean end,
the error's text otherwise). -/
theorem next_after_terminal (lib : FlateLib) (template : WrpMessage) (p : Packetizer) :
    (∀ o, p.outcome = some o →
      next lib false template p = some ((none, some o), p)) ∧
    (∀ m e p', next lib false template p = some ((some m, e), p') → p.outcome = none) ∧
    (∀ s e p', nextRaw lib false template p = some ((some s, some e), p') →
      p.outcome = none ∧
        s.fields.finalPacket = (if e = .eof then "EOF".data else errString e)) := by
  have h1 : ∀ o, p.outcome = some o →
      next lib false template p = some ((none, some o), p) := by
    intro o ho
    unfold next nextRaw
    rw [ho]
  refine ⟨h1, ?_, ?_⟩
  · intro m e p' h
    cases ho : p.outcome with
    | none => rfl
    | some o =>
      rw [h1 o ho] at h
      simp at h
  · intro s e p' h
    cases ho : p.outcome with
    | some o =>
      unfold nextRaw at h
      rw [ho] at h
      simp at h
    | none =>
      refine ⟨rfl, ?_⟩
      unfold nextRaw at h
      rw [ho] at h
      cases hr : readPhase false p.stream with
      | none => rw [hr] at h; simp at h
      | some pr =>
        obtain ⟨⟨bs, rerr⟩, rest⟩ := pr
        rw [hr] at h
        simp only at h
        cases hg : p.txGen with
        | none =>
          simp only [hg, Option.some.injEq, Prod.mk.injEq] at h
          obtain ⟨⟨hs, hout⟩, _⟩ := h
          rw [← hs]
          simp only
          exact fp2Of_outcome p.finalPacket rerr (encStep lib p.encoding bs) e hout
            (fun ee hee => by rw [encStep_error lib p.encoding bs ee hee]; decide)
        | some g =>
          simp only [hg] at h
          cases hgr : g p.txCount with
          | error ge =>
            simp only [hgr] at h
            simp at h
          | ok tid =>
            simp only [hgr, Option.some.injEq, Prod.mk.injEq] at h
            obtain ⟨⟨hs, hout⟩, _⟩ := h
            rw [← hs]
            simp only
            exact fp2Of_outcome p.finalPacket rerr (encStep lib p.encoding bs) e hout
              (fun ee hee => by rw [encStep_error lib p.encoding bs ee hee]; decide)

/-- A packetizer already in its terminal state. -/
def c9Terminal : Packetizer :=
  { stream := [], id := ['a'], maxPacketSize := 1, encoding := [], outcome := some .eof }

/-- A fresh packetizer whose source reports a clean EOF at once. -/
def c9Fresh : Packetizer :=
  { stream := [([], some .eof)], id := ['a'], maxPacketSize := 1, encoding := [] }

/-- The wire message `Next` produces from `c9Fresh` (its first and only
terminal call). -/
def c9WireMsg : WrpMessage :=
  { mtype := .simpleEvent
    headers := ["stream-id: a".data, "stream-packet-number: 0".data,
                "stream-final-packet: eof".data] }

/-- The streaming message `nextRaw` produces from `c9Fresh`. -/
def c9SSM : SSM :=
  { message := { mtype := .simpleEvent }
    fields := { streamID := ['a'], packetNumber := 0, finalPacket := "EOF".data } }

/-- The packetizer state after the terminal call on `c9Fresh`. -/
def c9After : Packetizer :=
  { stream := [], id := ['a'], currentPacketNumber := 1, maxPacketSize := 1,
    encoding := [], finalPacket := "EOF".data, outcome := some .eof }

/-- Witness for C9: all three parts applied at the concrete states above. -/
theorem next_after_terminal_witness :
    next mockLib false {} c9Terminal = some ((none, some .eof), c9Terminal) ∧
    c9Fresh.outcome = none ∧
    (c9Fresh.outcome = none ∧
      c9SSM.fields.finalPacket =
        (if GoErr.eof = GoErr.eof then "EOF".data else errString .eof)) :=
  ⟨(next_after_terminal mockLib {} c9Terminal).1 .eof rfl,
   (next_after_terminal mockLib {} c9Fresh).2.1 c9WireMsg (some .eof) c9After rfl,
   (next_after_terminal mockLib {} c9Fresh).2.2 c9SSM .eof c9After rfl⟩

/-! ### Claim C3: emission sequence numbers and terminal stability -/

/-- Check that a list of integers is `n, n+1, n+2, …`. -/
def consecFromB : Int → List Int → Bool
  | _, [] => true
  | n, m :: r => m = n && consecFromB (n + 1) r

/-- The configured transaction-id generator (if any) never fails. -/
def TxNeverFails : Option (Nat → Except GoErr GoStr) → Prop
  | none => True
  | some g => ∀ k, ∃ s, g k = .ok s

/-- After the first terminal call, `nextRaw` replays the stored outcome with
no fragment and no state change. -/
theorem nextRaw_terminal (lib : FlateLib) (cancelled : Bool) (template : WrpMessage)
    (p : Packetizer) (o : GoErr) (ho : p.outcome = some o) :
    nextRaw lib cancelled template p = some ((none, some o), p) := by
  unfold nextRaw
  rw [ho]

/-- A run started in a terminal state emits nothing and never changes state. -/
theorem runNextRaw_terminal (lib : FlateLib) (template : WrpMessage) (o : GoErr) :
    ∀ (fuel : Nat) (p : Packetizer), p.outcome = some o →
      runNextRaw lib template fuel p = (List.replicate fuel (none, some o), p) := by
  intro fuel
  induction fuel with
  | zero => intro p _; rfl
  | succ n ih =>
    intro p ho
    unfold runNextRaw
    rw [nextRaw_terminal lib false template p o ho]
    simp [ih p ho, List.replicate_succ]

theorem emittedNumbers_replicate (k : Nat) (e : Option GoErr) :
    emittedNumbers (List.replicate k (none, e)) = [] := by
  induction k with
  | zero => rfl
  | succ n ih => simpa [List.replicate_succ, emittedNumbers] using ih

theorem emittedNumbers_cons_some (ssm : SSM) (e : Option GoErr)
    (rs : List (Option SSM × Option GoErr)) :
    emittedNumbers ((some ssm, e) :: rs) = ssm.fields.packetNumber :: emittedNumbers rs := rfl

/-- A productive, non-terminal `nextRaw` call emits exactly the current
sequence number, then advances it by one; the generator and the computed
outcome land in the successor state. -/
theorem nextRaw_emits (lib : FlateLib) (template : WrpMessage) (p : Packetizer)
    (ho : p.outcome = none)
    (bs : List Byte) (rerr : Option GoErr) (rest : List ReadEvt)
    (hr : readPhase false p.stream = some ((bs, rerr), rest))
    (htx : TxNeverFails p.txGen) :
    ∃ ssm p', nextRaw lib false template p =
        some ((some ssm, outcome2Of rerr (encStep lib p.encoding bs)), p') ∧
      ssm.fields.packetNumber = p.currentPacketNumber ∧
      p'.currentPacketNumber = p.currentPacketNumber + 1 ∧
      p'.txGen = p.txGen ∧
      p'.outcome = outcome2Of rerr (encStep lib p.encoding bs) := by
  unfold nextRaw
  rw [ho, hr]
  cases hg : p.txGen with
  | none =>
    simp only
    exact ⟨_, _, rfl, rfl, rfl, rfl, rfl⟩
  | some g =>
    rw [hg] at htx
    obtain ⟨s, hgs⟩ := htx p.txCount
    simp only [hgs]
    exact ⟨_, _, rfl, rfl, rfl, rfl, rfl⟩

/-- The numbers emitted from any non-terminal state with a never-failing
generator are consecutive, starting at the current counter. -/
theorem emitted_consecutive (lib : FlateLib) (template : WrpMessage) :
    ∀ (fuel : Nat) (p : Packetizer), TxNeverFails p.txGen → p.outcome = none →
      consecFromB p.currentPacketNumber
        (emittedNumbers (runNextRaw lib template fuel p).1) = true := by
  intro fuel
  induction fuel with
  | zero => intro p _ _; rfl
  | succ n ih =>
    intro p htx ho
    unfold runNextRaw
    cases hr : readPhase false p.stream with
    | none =>
      have hnone : nextRaw lib false template p = none := by
        unfold nextRaw
        rw [ho, hr]
      rw [hnone]
      rfl
    | some pr =>
      obtain ⟨⟨bs, rerr⟩, rest⟩ := pr
      obtain ⟨ssm, p', hstep, hnum, hcnt, htg, hout⟩ :=
        nextRaw_emits lib template p ho bs rerr rest hr htx
      rw [hstep]
      simp only
      rw [emittedNumbers_cons_some]
      have htx' : TxNeverFails p'.txGen := by rw [htg]; exact htx
      have htail : consecFromB (p.currentPacketNumber + 1)
          (emittedNumbers (runNextRaw lib template n p').1) = true := by
        cases ho' : p'.outcome with
        | none =>
          have hrec := ih p' htx' ho'
          rw [hcnt] at hrec
          exact hrec
        | some o =>
          simp [runNextRaw_terminal lib template o n p' ho', emittedNumbers_replicate,
            consecFromB]
      simp [consecFromB, hnum, htail]

/-- Claim C3 as amended: for a fresh packetizer whose configured generator (if
any) never fails, the fragments emitted across any sequence of `nextRaw`
calls carry packet numbers `0, 1, 2, …` with no gaps or repeats; and once a
call has stored a terminal outcome, every further call returns that identical
outcome with no fragment and without touching the state (so the byte source
is never read again).  (A failing generator call, however, consumes a
sequence number — see the counterexample.) -/
theorem emission_numbers_amended (lib : FlateLib) (template : WrpMessage)
    (p : Packetizer) (fuel : Nat)
    (htx : TxNeverFails p.txGen) (ho : p.outcome = none)
    (hc : p.currentPacketNumber = 0) :
    consecFromB 0 (emittedNumbers (runNextRaw lib template fuel p).1) = true ∧
    (∀ (q : Packetizer) (o : GoErr), q.outcome = some o →
      nextRaw lib false template q = some ((none, some o), q)) := by
  constructor
  · have := emitted_consecutive lib template fuel p htx ho
    rw [hc] at this
    exact this
  · exact fun q o hq => nextRaw_terminal lib false template q o hq

/-- A packetizer whose generator fails on its second invocation. -/
def c3TxPack : Packetizer :=
  { stream := [([1], none), ([2], none), ([], some .eof)]
    id := ['a']
    maxPacketSize := 1
    encoding := []
    txGen := some (fun k => if k = 1 then .error (.other "gen failed".data) else .ok "tid".data) }

/-- Counterexample to claim C3 as stated: with a generator that fails on the
second call, the run emits packet numbers `0` and `2` — the failed call
consumed number `1`, leaving a gap. -/
theorem c3_counterexample :
    emittedNumbers (runNextRaw mockLib {} 3 c3TxPack).1 = [0, 2] ∧
      consecFromB 0 [0, 2] = false := by
  constructor
  · rfl
  · rfl

/-- A terminal packetizer for the C3 witness. -/
def c3Terminal : Packetizer :=
  { stream := [], id := ['a'], maxPacketSize := 1, encoding := [],
    outcome := some .unexpectedEOF }

/-- Witness for the amended C3: a concrete three-byte stream in two-byte
fragments emits numbers `0, 1, 2`, and a concrete terminal packetizer replays
its stored outcome unchanged. -/
theorem emission_numbers_witness :
    consecFromB 0
      (emittedNumbers (runNextRaw mockLib {} 5 (initPacketizer [1, 2, 3] 2 ['a'] [] 0)).1) =
        true ∧
    nextRaw mockLib false {} c3Terminal = some ((none, some .unexpectedEOF), c3Terminal) :=
  ⟨(emission_numbers_amended mockLib {} (initPacketizer [1, 2, 3] 2 ['a'] [] 0) 5
      trivial rfl rfl).1,
   (emission_numbers_amended mockLib {} (initPacketizer [1, 2, 3] 2 ['a'] [] 0) 5
      trivial rfl rfl).2 c3Terminal .unexpectedEOF rfl⟩

/-! ### Claim C1: the full pipeline round trip -/

/-- The value produced by `Encoding.encode` for a valid encoding (which never
fails): identity passes through, otherwise the matching compressor runs. -/
def encodeV (lib : FlateLib) (e : Encoding) (x : List Byte) : List Byte :=
  if encIs e encIdentity then x
  else if goHasPrefix e encGzip then lib.gzipC x
  else lib.flateC x

theorem encEncode_valid (lib : FlateLib) (e : Encoding) (x : List Byte)
    (he : encIsValid e = true) : encEncode lib e x = .ok (encodeV lib e x) := by
  have he' : ((e = [] ∨ e = encIdentity) ∨ e = encGzip) ∨ e = encDeflate := by
    simpa [encIsValid] using he
  rcases he' with ((h | h) | h) | h <;> subst h <;> rfl

/-- The encoding tag that actually travels on the wire: identity-equivalent
encodings produce no header, anything else travels verbatim. -/
def wireEnc (e : Encoding) : Encoding :=
  if e = encGzip ∨ e = encDeflate then e else []

theorem decode_encodeV (lib : FlateLib) (hs : FlateSpec lib) (e : Encoding)
    (he : encIsValid e = true) (x : List Byte) :
    encDecode lib (wireEnc e) (encodeV lib e x) = .ok x := by
  have he' : ((e = [] ∨ e = encIdentity) ∨ e = encGzip) ∨ e = encDeflate := by
    simpa [encIsValid] using he
  rcases he' with ((h | h) | h) | h <;> subst h
  · rfl
  · rfl
  · show encDecode lib encGzip (lib.gzipC x) = .ok x
    rw [encDecode_gzip]
    exact hs.gzip_rt x
  · show encDecode lib encDeflate (lib.flateC x) = .ok x
    rw [encDecode_deflate]
    exact hs.flate_rt x

/-- The error the terminal read surfaces: the terminal fragment's empty
payload decodes fine under identity, makes `gzip.NewReader` fail with the
clean `io.EOF`, and makes the flate reader fail with `io.ErrUnexpectedEOF`. -/
def finalErr (e : Encoding) : GoErr :=
  if e = encDeflate then .unexpectedEOF else .eof

theorem decode_empty_wireEnc (lib : FlateLib) (hs : FlateSpec lib) (e : Encoding)
    (he : encIsValid e = true) :
    encDecode lib (wireEnc e) [] =
      (if e = encDeflate then .error .unexpectedEOF
       else if e = encGzip then .error .eof else .ok []) := by
  have he' : ((e = [] ∨ e = encIdentity) ∨ e = encGzip) ∨ e = encDeflate := by
    simpa [encIsValid] using he
  rcases he' with ((h | h) | h) | h <;> subst h
  · rfl
  · rfl
  · show encDecode lib encGzip [] = _
    rw [encDecode_gzip, hs.gzip_empty]
    rfl
  · show encDecode lib encDeflate [] = _
    rw [encDecode_deflate, hs.flate_empty]
    rfl

/-- A running packetizer over a `bytes.Reader`, as set up by `New` and then
advanced `cnt` calls in. -/
def runP (data : List Byte) (m : Nat) (id : GoStr) (enc : Encoding) (est : Nat)
    (cnt : Int) : Packetizer :=
  { stream := bytesReaderEvents m data
    id := id
    currentPacketNumber := cnt
    maxPacketSize := m
    encoding := enc
    estimatedSize := est }

theorem initPacketizer_eq_runP (data : List Byte) (m : Nat) (id : GoStr) (enc : Encoding)
    (est : Nat) : initPacketizer data m id enc est = runP data m id enc est 0 := rfl

theorem bytesReaderEvents_cons (m : Nat) (data : List Byte) (hm : m ≠ 0) (hd : data ≠ []) :
    bytesReaderEvents m data = (data.take m, none) :: bytesReaderEvents m (data.drop m) := by
  rw [bytesReaderEvents]
  rw [dif_neg (by push_neg; exact ⟨hd, hm⟩)]

theorem bytesReaderEvents_nil (m : Nat) :
    bytesReaderEvents m [] = [([], some .eof)] := by
  rw [bytesReaderEvents]
  rw [dif_pos (.inl rfl)]

theorem readPhase_events_cons (m : Nat) (data : List Byte) (hm : m ≠ 0) (hd : data ≠ []) :
    readPhase false (bytesReaderEvents m data) =
      some ((data.take m, none), bytesReaderEvents m (data.drop m)) := by
  rw [readPhase, if_neg (by simp), bytesReaderEvents_cons m data hm hd, readLoop]
  rw [if_neg (by simp [List.take_eq_nil_iff, hm, hd])]

theorem readPhase_events_nil (m : Nat) :
    readPhase false (bytesReaderEvents m []) = some (([], some .eof), []) := by
  rw [readPhase, if_neg (by simp), bytesReaderEvents_nil, readLoop]
  rw [if_neg (by simp)]

/-- The packetizer state after the terminal call: drained source, recorded
`"EOF"` reason and stored `io.EOF` outcome. -/
def terminalP (m : Nat) (id : GoStr) (enc : Encoding) (est : Nat) (cnt : Int) : Packetizer :=
  { stream := []
    id := id
    currentPacketNumber := cnt
    maxPacketSize := m
    encoding := enc
    estimatedSize := est
    finalPacket := "EOF".data
    outcome := some .eof }

theorem next_data_step (lib : FlateLib) (tmpl : WrpMessage)
    (data : List Byte) (m : Nat) (id : GoStr) (enc : Encoding) (est : Nat) (cnt : Int)
    (hd : data ≠ []) (hm : m ≠ 0) (henc : encIsValid enc = true) (hid : validID id)
    (hcnt : 0 ≤ cnt) :
    next lib false tmpl (runP data m id enc est cnt) =
      some ((some { mtype := tmpl.mtype
                    headers := (split tmpl.headers).2 ++ ssmHeaders ⟨id, cnt, est, [], enc⟩
                    payload := encodeV lib enc (data.take m)
                    transactionUUID := tmpl.transactionUUID }, none),
        runP (data.drop m) m id enc est (cnt + 1)) := by
  have htake : data.take m ≠ [] := by
    rw [Ne, List.take_eq_nil_iff]
    push_neg
    constructor <;> first | exact hm | exact hd
  have her : encStep lib enc (data.take m) = .ok (encodeV lib enc (data.take m)) := by
    unfold encStep
    rw [if_pos htake, encEncode_valid lib enc _ henc]
  have hraw : nextRaw lib false tmpl (runP data m id enc est cnt) =
      some ((some ⟨{ tmpl with payload := encodeV lib enc (data.take m) },
          ⟨id, cnt, est, [], enc⟩⟩, none),
        runP (data.drop m) m id enc est (cnt + 1)) := by
    unfold nextRaw runP
    simp only [readPhase_events_cons m data hm hd, her, fpAfterRead, fp2Of, outcome2Of,
      payloadOf]
  unfold next
  simp only [hraw]
  rw [ssmToMsg_ok { tmpl with payload := encodeV lib enc (data.take m) }
    ⟨id, cnt, est, [], enc⟩ hid.1 hcnt henc]

theorem next_eof_step (lib : FlateLib) (tmpl : WrpMessage)
    (m : Nat) (id : GoStr) (enc : Encoding) (est : Nat) (cnt : Int)
    (henc : encIsValid enc = true) (hid : validID id) (hcnt : 0 ≤ cnt) :
    next lib false tmpl (runP [] m id enc est cnt) =
      some ((some { mtype := tmpl.mtype
                    headers := (split tmpl.headers).2 ++ ssmHeaders ⟨id, cnt, est, "EOF".data, enc⟩
                    payload := []
                    transactionUUID := tmpl.transactionUUID }, some .eof),
        terminalP m id enc est (cnt + 1)) := by
  have hraw : nextRaw lib false tmpl (runP [] m id enc est cnt) =
      some ((some ⟨{ tmpl with payload := [] }, ⟨id, cnt, est, "EOF".data, enc⟩⟩, some .eof),
        terminalP m id enc est (cnt + 1)) := by
    unfold nextRaw runP terminalP
    simp only [readPhase_events_nil, encStep, fpAfterRead, fp2Of, outcome2Of, payloadOf]
    rfl
  unfold next
  simp only [hraw]
  rw [ssmToMsg_ok { tmpl with payload := ([] : List Byte) }
    ⟨id, cnt, est, "EOF".data, enc⟩ hid.1 hcnt henc]

theorem runNext_outcome (lib : FlateLib) (tmpl : WrpMessage) (p : Packetizer) (o : GoErr)
    (h : p.outcome = some o) :
    ∀ fuel : Nat, runNext lib tmpl fuel p =
      (List.replicate fuel ((none : Option WrpMessage), some o), p) := by
  have hn : next lib false tmpl p = some ((none, some o), p) := by
    unfold next nextRaw
    rw [h]
  intro fuel
  induction fuel with
  | zero => rfl
  | succ f ih =>
    unfold runNext
    rw [hn]
    simp only [ih, List.replicate_succ]

theorem filterMap_fst_replicate_none (f : Nat) (e : Option GoErr) :
    (List.replicate f ((none : Option WrpMessage), e)).filterMap Prod.fst = [] := by
  induction f with
  | zero => rfl
  | succ g ih => simpa [List.replicate_succ] using ih

/-- The wire messages a full packetizer run over `data` is expected to
produce: one fragment per `m`-byte chunk, then the terminal fragment. -/
def wireMsgs (lib : FlateLib) (tmpl : WrpMessage) (id : GoStr) (enc : Encoding) (est : Nat)
    (m : Nat) (data : List Byte) (cnt : Int) : List WrpMessage :=
  if data = [] ∨ m = 0 then
    [{ mtype := tmpl.mtype
       headers := (split tmpl.headers).2 ++ ssmHeaders ⟨id, cnt, est, "EOF".data, enc⟩
       payload := []
       transactionUUID := tmpl.transactionUUID }]
  else
    { mtype := tmpl.mtype
      headers := (split tmpl.headers).2 ++ ssmHeaders ⟨id, cnt, est, [], enc⟩
      payload := encodeV lib enc (data.take m)
      transactionUUID := tmpl.transactionUUID } ::
      wireMsgs lib tmpl id enc est m (data.drop m) (cnt + 1)
termination_by data.length
decreasing_by
  rename_i h
  push_neg at h
  obtain ⟨h1, h2⟩ := h
  have : 0 < data.length := List.length_pos.mpr h1
  simp [List.length_drop]
  omega

/-- A full `Next` run over a `bytes.Reader` source emits exactly the expected
chunk fragments followed by the terminal fragment. -/
theorem runNext_wire (lib : FlateLib) (tmpl : WrpMessage) (id : GoStr) (enc : Encoding)
    (est : Nat) (m : Nat) (hm : m ≠ 0) (henc : encIsValid enc = true) (hid : validID id) :
    ∀ (k : Nat) (data : List Byte), data.length = k → ∀ cnt : Int, 0 ≤ cnt →
      ∀ fuel : Nat, data.length + 1 ≤ fuel →
      (runNext lib tmpl fuel (runP data m id enc est cnt)).1.filterMap Prod.fst =
        wireMsgs lib tmpl id enc est m data cnt := by
  intro k
  induction k using Nat.strong_induction_on with
  | _ k ih =>
    intro data hk cnt hcnt fuel hfuel
    obtain ⟨f, rfl⟩ : ∃ f, fuel = f + 1 := ⟨fuel - 1, by omega⟩
    by_cases hd : data = []
    · subst hd
      rw [wireMsgs, if_pos (.inl rfl)]
      unfold runNext
      rw [next_eof_step lib tmpl m id enc est cnt henc hid hcnt]
      simp only [runNext_outcome lib tmpl (terminalP m id enc est (cnt + 1)) .eof rfl f]
      simp [filterMap_fst_replicate_none]
    · rw [wireMsgs, if_neg (by push_neg; exact ⟨hd, hm⟩)]
      unfold runNext
      rw [next_data_step lib tmpl data m id enc est cnt hd hm henc hid hcnt]
      have hlen : 0 < data.length := List.length_pos.mpr hd
      have hrec := ih (data.drop m).length (by simp [List.length_drop]; omega)
        (data.drop m) rfl (cnt + 1) (by omega) f
        (by simp [List.length_drop]; omega)
      simp only [List.filterMap_cons]
      rw [hrec]

/-- The buffered fragments the ingest of a full run is expected to build: the
assoc list keyed `cnt, cnt+1, …`, chunk fragments first, terminal fragment
last (each fragment as `From` decodes it). -/
def wirePairs (lib : FlateLib) (tmpl : WrpMessage) (id : GoStr) (enc : Encoding) (est : Nat)
    (m : Nat) (data : List Byte) (cnt : Int) : List (Int × SSM) :=
  if data = [] ∨ m = 0 then
    [(cnt, ⟨{ mtype := tmpl.mtype, headers := (split tmpl.headers).2, payload := [],
              transactionUUID := tmpl.transactionUUID },
            ⟨id, cnt, est, "eof".data, wireEnc enc⟩⟩)]
  else
    (cnt, ⟨{ mtype := tmpl.mtype, headers := (split tmpl.headers).2,
             payload := encodeV lib enc (data.take m),
             transactionUUID := tmpl.transactionUUID },
           ⟨id, cnt, est, [], wireEnc enc⟩⟩) ::
      wirePairs lib tmpl id enc est m (data.drop m) (cnt + 1)
termination_by data.length
decreasing_by
  rename_i h
  push_neg at h
  obtain ⟨h1, h2⟩ := h
  have : 0 < data.length := List.length_pos.mpr h1
  simp [List.length_drop]
  omega

def keysBelow (pk : List (Int × SSM)) (c : Int) : Prop :=
  ∀ kv ∈ pk, kv.1 < c

theorem alookup_none_of_keysBelow (pk : List (Int × SSM)) (c n : Int)
    (h : keysBelow pk c) (hn : c ≤ n) : alookup pk n = none := by
  induction pk with
  | nil => rfl
  | cons kv rest ih =>
    unfold alookup
    rw [if_neg]
    · exact ih (fun x hx => h x (by simp [hx]))
    · have := h kv (by simp)
      omega

theorem processWRP_insert (a : Assembler) (msg : WrpMessage) (ssp : SSM)
    (hcand : isSSPCandidate msg = true) (hfrom : ssmFromMsg msg = .ok ssp)
    (hopen : a.closed = false) (hcur : a.current ≤ ssp.fields.packetNumber)
    (hnew : alookup (a.packets.getD []) ssp.fields.packetNumber = none) :
    processWRP a msg =
      (none, { a with
        packets := some (a.packets.getD [] ++ [(ssp.fields.packetNumber, ssp)]) }) := by
  unfold processWRP
  rw [if_neg (by rw [hcand]; simp)]
  simp only [hfrom]
  rw [if_neg (by simp [hopen])]
  rw [if_neg (not_lt.mpr hcur)]
  simp only [hnew, Option.isSome_none, Bool.false_eq_true, if_false]

theorem ingestAll_cons (a : Assembler) (msg : WrpMessage) (msgs : List WrpMessage) :
    ingestAll a (msg :: msgs) = ingestAll (processWRP a msg).2 msgs := rfl

theorem encIsValid_disj (enc : Encoding) (henc : encIsValid enc = true) :
    ((enc = [] ∨ enc = encIdentity) ∨ enc = encGzip) ∨ enc = encDeflate := by
  simpa [encIsValid] using henc

/-- Ingesting the wire messages of a full run into an open assembler whose
buffered keys all lie below the run's first number appends exactly the
expected fragment pairs, touching nothing else. -/
theorem ingest_wire (lib : FlateLib) (tmpl : WrpMessage) (id : GoStr) (enc : Encoding)
    (est : Nat) (m : Nat) (hm : m ≠ 0) (henc : encIsValid enc = true) (hid : validID id)
    (hest : est < 2 ^ 64) :
    ∀ (k : Nat) (data : List Byte), data.length = k →
    ∀ cnt : Int, 0 ≤ cnt → cnt + data.length < 2 ^ 63 →
    ∀ (cur : Int) (fin : GoStr) (off : Nat) (pks : Option (List (Int × SSM)))
      (dc : Option (Int × List Byte)),
      cur ≤ cnt → keysBelow (pks.getD []) cnt →
      ingestAll ⟨false, cur, fin, off, pks, dc⟩ (wireMsgs lib tmpl id enc est m data cnt) =
        ⟨false, cur, fin, off,
          some (pks.getD [] ++ wirePairs lib tmpl id enc est m data cnt), dc⟩ := by
  intro k
  induction k using Nat.strong_induction_on with
  | _ k ih =>
    intro data hk cnt hcnt hbound cur fin off pks dc hcur hkeys
    have hwd := wire_decode ((split tmpl.headers).2) (split_others_plain tmpl.headers)
      tmpl.mtype
    by_cases hd : data = []
    · subst hd
      rw [wireMsgs, if_pos (.inl rfl), wirePairs, if_pos (.inl rfl)]
      have hw := hwd [] tmpl.transactionUUID id hid cnt hcnt (by simpa using hbound)
        est hest "EOF".data (.inr rfl) enc (encIsValid_disj enc henc)
      rw [ingestAll_cons]
      rw [processWRP_insert _ _ _ hw.1 hw.2 rfl hcur
        (alookup_none_of_keysBelow _ _ _ hkeys le_rfl)]
      simp [ingestAll, wireEnc]
    · rw [wireMsgs, if_neg (by push_neg; exact ⟨hd, hm⟩),
        wirePairs, if_neg (by push_neg; exact ⟨hd, hm⟩)]
      have hlen : 0 < data.length := List.length_pos.mpr hd
      have hw := hwd (encodeV lib enc (data.take m)) tmpl.transactionUUID id hid cnt hcnt
        (by omega) est hest [] (.inl rfl) enc (encIsValid_disj enc henc)
      rw [ingestAll_cons]
      rw [processWRP_insert _ _ _ hw.1 hw.2 rfl hcur
        (alookup_none_of_keysBelow _ _ _ hkeys le_rfl)]
      have hrec := ih (data.drop m).length (by simp [List.length_drop]; omega)
        (data.drop m) rfl (cnt + 1) (by omega)
        (by simp [List.length_drop]; omega) cur fin off
        (some (pks.getD [] ++
          [(cnt, ⟨{ mtype := tmpl.mtype, headers := (split tmpl.headers).2,
                    payload := encodeV lib enc (data.take m),
                    transactionUUID := tmpl.transactionUUID },
                  ⟨id, cnt, est, [], wireEnc enc⟩⟩)])) dc
        (by omega)
        (by
          intro kv hkv
          rcases List.mem_append.mp hkv with h1 | h1
          · have := hkeys kv h1
            omega
          · rw [List.mem_singleton.mp h1]
            omega)
      simp only [wireEnc] at hrec
      simpa [List.append_assoc] using hrec

/-- A buffered chunk fragment, as `From` stores it. -/
def fragSSM (lib : FlateLib) (tmpl : WrpMessage) (id : GoStr) (enc : Encoding) (est : Nat)
    (cnt : Int) (chunk : List Byte) : SSM :=
  ⟨{ mtype := tmpl.mtype, headers := (split tmpl.headers).2,
     payload := encodeV lib enc chunk, transactionUUID := tmpl.transactionUUID },
   ⟨id, cnt, est, [], wireEnc enc⟩⟩

/-- The buffered terminal fragment, as `From` stores it. -/
def termSSM (tmpl : WrpMessage) (id : GoStr) (enc : Encoding) (est : Nat) (cnt : Int) : SSM :=
  ⟨{ mtype := tmpl.mtype, headers := (split tmpl.headers).2, payload := [],
     transactionUUID := tmpl.transactionUUID },
   ⟨id, cnt, est, "eof".data, wireEnc enc⟩⟩

theorem wirePairs_nil (lib : FlateLib) (tmpl : WrpMessage) (id : GoStr) (enc : Encoding)
    (est : Nat) (m : Nat) (cnt : Int) :
    wirePairs lib tmpl id enc est m [] cnt = [(cnt, termSSM tmpl id enc est cnt)] := by
  rw [wirePairs, if_pos (.inl rfl)]
  rfl

theorem wirePairs_cons (lib : FlateLib) (tmpl : WrpMessage) (id : GoStr) (enc : Encoding)
    (est : Nat) (m : Nat) (data : List Byte) (cnt : Int) (hd : data ≠ []) (hm : m ≠ 0) :
    wirePairs lib tmpl id enc est m data cnt =
      (cnt, fragSSM lib tmpl id enc est cnt (data.take m)) ::
        wirePairs lib tmpl id enc est m (data.drop m) (cnt + 1) := by
  rw [wirePairs, if_neg (by push_neg; exact ⟨hd, hm⟩)]
  rfl

theorem wirePairs_keys_ge (lib : FlateLib) (tmpl : WrpMessage) (id : GoStr) (enc : Encoding)
    (est : Nat) (m : Nat) :
    ∀ (k : Nat) (data : List Byte), data.length = k → ∀ (cnt : Int),
      ∀ kv ∈ wirePairs lib tmpl id enc est m data cnt, cnt ≤ kv.1 := by
  intro k
  induction k using Nat.strong_induction_on with
  | _ k ih =>
    intro data hk cnt kv hkv
    rw [wirePairs] at hkv
    by_cases hcond : data = [] ∨ m = 0
    · rw [if_pos hcond] at hkv
      rw [List.mem_singleton.mp hkv]
    · rw [if_neg hcond] at hkv
      push_neg at hcond
      have hlen : 0 < data.length := List.length_pos.mpr hcond.1
      rcases List.mem_cons.mp hkv with h1 | h1
      · rw [h1]
      · have := ih (data.drop m).length
          (by simp [List.length_drop]; omega) (data.drop m) rfl (cnt + 1) kv h1
        omega

theorem aerase_cons_head (n : Int) (s : SSM) (rest : List (Int × SSM))
    (h : ∀ kv ∈ rest, kv.1 ≠ n) : aerase ((n, s) :: rest) n = rest := by
  unfold aerase
  rw [List.filter_cons]
  rw [if_neg (by simp)]
  rw [List.filter_eq_self.mpr]
  intro a ha
  simpa using h a ha

/-- One `Read` in the middle of a chunk fragment: it delivers the next slice
of the decoded bytes with no error, advancing to the next fragment exactly
when the slice exhausts this one. -/
theorem aread_frag (lib : FlateLib) (hs : FlateSpec lib) (c : Nat)
    (tmpl : WrpMessage) (id : GoStr) (enc : Encoding) (henc : encIsValid enc = true)
    (est : Nat) (cnt : Int) (chunk : List Byte) (o : Nat) (ho : o < chunk.length)
    (rest : List (Int × SSM)) (hkeys : ∀ kv ∈ rest, kv.1 ≠ cnt)
    (cache : Option (Int × List Byte)) (hcache : cache = none ∨ cache = some (cnt, chunk)) :
    aread lib ⟨false, cnt, [], o,
        some ((cnt, fragSSM lib tmpl id enc est cnt chunk) :: rest), cache⟩ c =
      (((chunk.drop o).take c, none),
        if chunk.length ≤ o + ((chunk.drop o).take c).length then
          ⟨false, cnt + 1, [], 0, some rest, none⟩
        else
          ⟨false, cnt, [], o + ((chunk.drop o).take c).length,
            some ((cnt, fragSSM lib tmpl id enc est cnt chunk) :: rest),
            some (cnt, chunk)⟩) := by
  have hdec : encDecode lib (fragSSM lib tmpl id enc est cnt chunk).fields.encoding
      (fragSSM lib tmpl id enc est cnt chunk).message.payload = .ok chunk :=
    decode_encodeV lib hs enc henc chunk
  have hget : getPacket lib ⟨false, cnt, [], o,
      some ((cnt, fragSSM lib tmpl id enc est cnt chunk) :: rest), cache⟩ cnt =
      ((some (fragSSM lib tmpl id enc est cnt chunk), chunk, true, none),
        ⟨false, cnt, [], o,
          some ((cnt, fragSSM lib tmpl id enc est cnt chunk) :: rest),
          some (cnt, chunk)⟩) := by
    unfold getPacket
    rcases hcache with hc0 | hc0 <;> subst hc0 <;>
      simp [alookup, hdec]
  unfold aread
  simp only [hget]
  rw [if_neg (by simp)]
  simp only [Option.getD_some]
  rw [show (fragSSM lib tmpl id enc est cnt chunk).fields.finalPacket = [] from rfl]
  rw [if_neg (show ¬(([] : GoStr) ≠ []) from by simp)]
  by_cases hadv : chunk.length ≤ o + ((chunk.drop o).take c).length
  · simp only [if_pos hadv]
    simp [aerase_cons_head cnt _ rest hkeys, getFinalState]
  · simp only [if_neg hadv]
    simp [getFinalState]

/-- One `Read` positioned at the terminal fragment: no bytes, and the
terminal error determined by the encoding (the terminal fragment's empty
payload trips up the gzip and flate readers before the `eof` marker is even
considered). -/
theorem aread_term_fst (lib : FlateLib) (hs : FlateSpec lib) (c : Nat)
    (tmpl : WrpMessage) (id : GoStr) (enc : Encoding) (henc : encIsValid enc = true)
    (est : Nat) (cnt : Int) :
    (aread lib ⟨false, cnt, [], 0,
        some [(cnt, termSSM tmpl id enc est cnt)], none⟩ c).1 =
      ([], some (finalErr enc)) := by
  rcases encIsValid_disj enc henc with ((he | he) | he) | he <;> subst he <;>
    simp [aread, getPacket, alookup, termSSM, wireEnc, encDecode, encIs, goHasPrefix,
      hs.gzip_empty, hs.flate_empty, getFinalState, trimSpace, toLowerStr, isSpaceChar,
      finalErr, encIdentity, encGzip, encDeflate]

theorem drain_succ (lib : FlateLib) (c fuel : Nat) (a : Assembler) :
    drain lib c (fuel + 1) a =
      match aread lib a c with
      | ((bs, some e), a') => (bs, some e, a')
      | ((bs, none), a') =>
        let rest := drain lib c fuel a'
        (bs ++ rest.1, rest.2.1, rest.2.2) := rfl

/-- The assembler state right after ingesting a full run whose first packet
number was `cnt`: cursor at `cnt`, all fragments buffered, nothing read yet. -/
def boundaryA (lib : FlateLib) (tmpl : WrpMessage) (id : GoStr) (enc : Encoding) (est : Nat)
    (m : Nat) (data : List Byte) (cnt : Int) : Assembler :=
  ⟨false, cnt, [], 0, some (wirePairs lib tmpl id enc est m data cnt), none⟩

/-- An assembler state in the middle of delivering the chunk fragment keyed
`cnt` (decoded bytes `chunk`, read offset `o`), with the fragments for
`restData` still queued behind it. -/
def fragA (lib : FlateLib) (tmpl : WrpMessage) (id : GoStr) (enc : Encoding) (est : Nat)
    (m : Nat) (chunk : List Byte) (o : Nat) (restData : List Byte) (cnt : Int)
    (cache : Option (Int × List Byte)) : Assembler :=
  ⟨false, cnt, [], o,
    some ((cnt, fragSSM lib tmpl id enc est cnt chunk) ::
      wirePairs lib tmpl id enc est m restData (cnt + 1)), cache⟩

/-- Draining an assembler holding a full ingested run delivers exactly the
original bytes and then the encoding-determined terminal error — stated
together with the mid-fragment invariant the induction carries. -/
theorem drain_master (lib : FlateLib) (hs : FlateSpec lib) (tmpl : WrpMessage) (id : GoStr)
    (enc : Encoding) (henc : encIsValid enc = true) (est : Nat) (m : Nat) (hm : m ≠ 0)
    (c : Nat) (hc : c ≠ 0) :
    ∀ fuel : Nat,
      (∀ (data : List Byte) (cnt : Int), data.length + 1 ≤ fuel →
        (drain lib c fuel (boundaryA lib tmpl id enc est m data cnt)).1 = data ∧
        (drain lib c fuel (boundaryA lib tmpl id enc est m data cnt)).2.1 =
          some (finalErr enc)) ∧
      (∀ (chunk : List Byte) (o : Nat) (restData : List Byte) (cnt : Int)
          (cache : Option (Int × List Byte)),
        o < chunk.length → (cache = none ∨ cache = some (cnt, chunk)) →
        (chunk.length - o) + restData.length + 1 ≤ fuel →
        (drain lib c fuel
            (fragA lib tmpl id enc est m chunk o restData cnt cache)).1 =
          chunk.drop o ++ restData ∧
        (drain lib c fuel
            (fragA lib tmpl id enc est m chunk o restData cnt cache)).2.1 =
          some (finalErr enc)) := by
  intro fuel
  induction fuel using Nat.strong_induction_on with
  | _ fuel ih =>
    have hF : ∀ (chunk : List Byte) (o : Nat) (restData : List Byte) (cnt : Int)
        (cache : Option (Int × List Byte)),
        o < chunk.length → (cache = none ∨ cache = some (cnt, chunk)) →
        (chunk.length - o) + restData.length + 1 ≤ fuel →
        (drain lib c fuel
            (fragA lib tmpl id enc est m chunk o restData cnt cache)).1 =
          chunk.drop o ++ restData ∧
        (drain lib c fuel
            (fragA lib tmpl id enc est m chunk o restData cnt cache)).2.1 =
          some (finalErr enc) := by
      intro chunk o restData cnt cache ho hcache hfuel
      obtain ⟨f, rfl⟩ : ∃ f, fuel = f + 1 := ⟨fuel - 1, by omega⟩
      have hkeys : ∀ kv ∈ wirePairs lib tmpl id enc est m restData (cnt + 1), kv.1 ≠ cnt := by
        intro kv hkv
        have := wirePairs_keys_ge lib tmpl id enc est m restData.length restData rfl
          (cnt + 1) kv hkv
        omega
      have hread := aread_frag lib hs c tmpl id enc henc est cnt chunk o ho _ hkeys
        cache hcache
      have hlout : ((chunk.drop o).take c).length = min c (chunk.length - o) := by
        simp [List.length_take, List.length_drop]
      rw [drain_succ]
      by_cases hadv : chunk.length ≤ o + ((chunk.drop o).take c).length
      · rw [if_pos hadv] at hread
        simp only [fragA] at hread ⊢
        simp only [hread]
        have hB := (ih f (by omega)).1 restData (cnt + 1) (by omega)
        simp only [boundaryA] at hB
        have hout : (chunk.drop o).take c = chunk.drop o := by
          apply List.take_of_length_le
          simp only [List.length_drop]
          omega
        refine ⟨?_, ?_⟩
        · simp only [hB.1, hout]
        · simp only [hB.2]
      · rw [if_neg hadv] at hread
        simp only [fragA] at hread ⊢
        simp only [hread]
        have hlo : ((chunk.drop o).take c).length = c := by omega
        have hF' := (ih f (by omega)).2 chunk (o + ((chunk.drop o).take c).length)
          restData cnt (some (cnt, chunk)) (by omega) (.inr rfl) (by omega)
        simp only [fragA] at hF'
        have hdd : chunk.drop (o + ((chunk.drop o).take c).length) =
            (chunk.drop o).drop c := by
          rw [List.drop_drop, hlo, Nat.add_comm]
        refine ⟨?_, ?_⟩
        · rw [hF'.1, hdd, ← List.append_assoc, List.take_append_drop]
        · exact hF'.2
    have hB : ∀ (data : List Byte) (cnt : Int), data.length + 1 ≤ fuel →
        (drain lib c fuel (boundaryA lib tmpl id enc est m data cnt)).1 = data ∧
        (drain lib c fuel (boundaryA lib tmpl id enc est m data cnt)).2.1 =
          some (finalErr enc) := by
      intro data cnt hfuel
      by_cases hd : data = []
      · subst hd
        obtain ⟨f, rfl⟩ : ∃ f, fuel = f + 1 := ⟨fuel - 1, by omega⟩
        have hterm := aread_term_fst lib hs c tmpl id enc henc est cnt
        rcases hx : aread lib ⟨false, cnt, [], 0,
            some [(cnt, termSSM tmpl id enc est cnt)], none⟩ c with ⟨⟨bs, err⟩, a'⟩
        rw [hx] at hterm
        have hbs : bs = [] := congrArg Prod.fst hterm
        have herr : err = some (finalErr enc) := congrArg Prod.snd hterm
        subst hbs herr
        rw [drain_succ]
        simp only [boundaryA, wirePairs_nil]
        rw [hx]
        exact ⟨rfl, rfl⟩
      · have hlen : 0 < data.length := List.length_pos.mpr hd
        have htk : 0 < (data.take m).length := by
          simp only [List.length_take]
          omega
        have hfr := hF (data.take m) 0 (data.drop m) cnt none htk (.inl rfl)
          (by simp only [List.length_take, List.length_drop]; omega)
        have hstate : boundaryA lib tmpl id enc est m data cnt =
            fragA lib tmpl id enc est m (data.take m) 0 (data.drop m) cnt none := by
          simp only [boundaryA, fragA, wirePairs_cons lib tmpl id enc est m data cnt hd hm]
        rw [hstate]
        refine ⟨?_, hfr.2⟩
        rw [hfr.1, List.drop_zero, List.take_append_drop]
    exact ⟨hB, hF⟩

/-- Claim C1, amended.  For every byte sequence, every maximum fragment size
≥ 1 and every valid encoding, feeding each envelope produced by successive
`Next` calls into `ProcessWRP` in production order and then draining `Read`
yields exactly the original byte sequence; the final read returns `io.EOF`
for the identity and gzip variants but `io.ErrUnexpectedEOF` for deflate,
whose decoder rejects the terminal fragment's empty payload. -/
theorem round_trip_amended (lib : FlateLib) (hs : FlateSpec lib) (tmpl : WrpMessage)
    (id : GoStr) (hid : validID id) (enc : Encoding) (henc : encIsValid enc = true)
    (est : Nat) (hest : est < 2 ^ 64) (data : List Byte)
    (hlen : (data.length : Int) < 2 ^ 63)
    (m : Nat) (hm : m ≠ 0) (c : Nat) (hc : c ≠ 0)
    (fuel : Nat) (hfuel : data.length + 1 ≤ fuel) :
    (drain lib c fuel (ingestAll {}
        ((runNext lib tmpl fuel (initPacketizer data m id enc est)).1.filterMap
          Prod.fst))).1 = data ∧
    (drain lib c fuel (ingestAll {}
        ((runNext lib tmpl fuel (initPacketizer data m id enc est)).1.filterMap
          Prod.fst))).2.1 = some (finalErr enc) := by
  rw [initPacketizer_eq_runP]
  rw [runNext_wire lib tmpl id enc est m hm henc hid data.length data rfl 0 le_rfl
    fuel hfuel]
  have hing := ingest_wire lib tmpl id enc est m hm henc hid hest data.length data rfl 0
    le_rfl (by omega) 0 [] 0 none none le_rfl
    (by intro kv hkv; simp at hkv)
  simp only [Option.getD_none, List.nil_append] at hing
  rw [hing]
  have hdm := (drain_master lib hs tmpl id enc henc est m hm c hc fuel).1 data 0 hfuel
  simpa only [boundaryA] using hdm

/-- Counterexample to claim C1 as stated: with the deflate encoding the drain
terminates with `io.ErrUnexpectedEOF`, not the clean end-of-stream condition
(run on the executable stand-in compressors). -/
theorem c1_counterexample :
    (drain mockLib 8 3 (ingestAll {}
        ((runNext mockLib { mtype := MsgType.simpleEvent } 3
          (initPacketizer [104, 105] 5 "s".data "deflate".data 0)).1.filterMap
            Prod.fst))).2.1 = some GoErr.unexpectedEOF ∧
    GoErr.unexpectedEOF ≠ GoErr.eof := by
  refine ⟨?_, by decide⟩
  rw [initPacketizer_eq_runP]
  rw [runNext_wire mockLib { mtype := MsgType.simpleEvent } "s".data "deflate".data 0 5
    (by decide) (by decide) (by decide) 2 [104, 105] rfl 0 le_rfl 3 (by norm_num)]
  have hing := ingest_wire mockLib { mtype := MsgType.simpleEvent } "s".data
    "deflate".data 0 5 (by decide) (by decide) (by decide) (by norm_num)
    2 [104, 105] rfl 0 le_rfl (by norm_num) 0 [] 0 none none le_rfl
    (by intro kv hkv; simp at hkv)
  simp only [Option.getD_none, List.nil_append] at hing
  rw [hing]
  have hdm := (drain_master mockLib mockLib_spec { mtype := MsgType.simpleEvent }
    "s".data "deflate".data (by decide) 0 5 (by decide) 8 (by decide) 3).1
    [104, 105] 0 (by norm_num)
  simp only [boundaryA] at hdm
  rw [hdm.2]
  rfl

theorem round_trip_amended_witness :
    (drain mockLib 3 6 (ingestAll {}
        ((runNext mockLib { mtype := MsgType.simpleEvent } 6
          (initPacketizer [1, 2, 3, 4, 5] 2 "abc".data "gzip".data 7)).1.filterMap
            Prod.fst))).1 = [1, 2, 3, 4, 5] ∧
    (drain mockLib 3 6 (ingestAll {}
        ((runNext mockLib { mtype := MsgType.simpleEvent } 6
          (initPacketizer [1, 2, 3, 4, 5] 2 "abc".data "gzip".data 7)).1.filterMap
            Prod.fst))).2.1 = some (finalErr "gzip".data) :=
  round_trip_amended mockLib mockLib_spec { mtype := MsgType.simpleEvent }
    "abc".data (by decide) "gzip".data (by decide) 7 (by norm_num)
    [1, 2, 3, 4, 5] (by norm_num) 2 (by decide) 3 (by decide) 6 (by norm_num)

end Wrpssp
